import Mathlib

/-!
# Verification of the ai-document-controller core pipeline

This file gives a shallow embedding, in Lean 4, of the scan → fingerprint →
classify → dedup → reorganize pipeline of the repository
(`document_controller.py`, `automation_agent.py`, `offline_engine.py`,
`move_duplicates.py`) and proves or refutes the frozen specification claims
about it.

Modelling conventions:
* Python strings are Lean `String`s; `str.lower()` is modelled character-wise
  by `Char.toLower` (the repository only lower-cases ASCII names and
  extensions).
* Python `datetime` values are modelled as Unix timestamps in seconds
  (`Int`); `timedelta(days = d)` is `d * 86400` seconds, and
  `datetime.fromtimestamp` is modelled with the proleptic Gregorian (civil)
  calendar in UTC.
* Python's `list.sort(key = ..., reverse = True)` is a stable sort; it is
  modelled by a stable insertion sort with the same comparator.
* The filesystem is modelled as explicit state: a list of existing file
  paths and a list of existing directory paths, threaded through the
  operations that the source performs eagerly (`os.path.exists`,
  `os.makedirs`, `shutil.move`).
-/

/-! ## Data model: `DocumentInfo` (document_controller.py, lines 44-54) -/

/-- One observed file at scan time, as built by
`DocumentAnalyzer.analyze_document`.  `modified_date` is a Unix timestamp in
seconds; `hash_value` is the hex digest, or `""` when the file was
unreadable. -/
structure DocumentInfo where
  path : String
  name : String
  size : Nat
  modified_date : Int
  file_type : String
  extension : String
  hash_value : String
  content_preview : Option String := none
deriving DecidableEq, Repr

/-! ## Python string primitives used by the source -/

/-- Python `str.lower()`, character by character (ASCII-only in this
repository). -/
def strLower (s : String) : String := ⟨s.data.map Char.toLower⟩

/-- Python's `sub in s` substring test on strings. -/
def pyIn (sub s : String) : Bool := decide (sub.data <:+: s.data)

/-- `os.path.join dir name` with POSIX separator (the second argument is
always a relative name in the source). -/
def pathJoin (dir name : String) : String := dir ++ "/" ++ name

/-- Index of the last `'.'` in a character list, if any. -/
def lastDotIdx (cs : List Char) : Option Nat :=
  match cs.reverse.findIdx? (fun c => c = '.') with
  | some i => some (cs.length - 1 - i)
  | none => none

/-- `os.path.splitext` on a base name: split at the last dot, except that
dots which are part of the leading run of dots never start an extension
(`splitext ".bashrc" = (".bashrc", "")`). -/
def splitext (s : String) : String × String :=
  let cs := s.data
  let lead := (cs.takeWhile (fun c => c = '.')).length
  match lastDotIdx cs with
  | some r => if lead < r then (⟨cs.take r⟩, ⟨cs.drop r⟩) else (s, "")
  | none => (s, "")

/-! ## Category derivation

Two distinct implementations exist in the repository and are both cited by
claim C5. -/

/-- The extension table of `AutomationScheduler._get_file_category`
(automation_agent.py, lines 487-504).  Note it has no `Executables`
entry. -/
def agent_categories : List (String × List String) :=
  [("Documents", [".pdf", ".doc", ".docx", ".txt", ".rtf", ".odt"]),
   ("Images", [".jpg", ".jpeg", ".png", ".gif", ".bmp", ".tiff", ".svg"]),
   ("Videos", [".mp4", ".avi", ".mkv", ".mov", ".wmv", ".flv"]),
   ("Audio", [".mp3", ".wav", ".flac", ".aac", ".wma"]),
   ("Archives", [".zip", ".rar", ".7z", ".tar", ".gz"]),
   ("Spreadsheets", [".xls", ".xlsx", ".csv", ".ods"]),
   ("Presentations", [".ppt", ".pptx", ".odp"]),
   ("Code", [".py", ".js", ".html", ".css", ".cpp", ".java", ".c"])]

/-- `AutomationScheduler._get_file_category` (automation_agent.py, lines
487-504): first table entry whose list contains the lower-cased extension;
`None` when no entry matches. -/
def get_file_category_agent (extension : String) : Option String :=
  (agent_categories.find? (fun ce => strLower extension ∈ ce.2)).map (fun ce => ce.1)

/-- The extension table `self.file_type_categories` of
`OfflineIntelligenceEngine` (offline_engine.py, lines 24-34). -/
def offline_categories : List (String × List String) :=
  [("documents", [".pdf", ".doc", ".docx", ".txt", ".rtf", ".odt"]),
   ("images", [".jpg", ".jpeg", ".png", ".gif", ".bmp", ".tiff", ".svg", ".webp"]),
   ("videos", [".mp4", ".avi", ".mkv", ".mov", ".wmv", ".flv", ".webm"]),
   ("audio", [".mp3", ".wav", ".flac", ".aac", ".wma", ".ogg"]),
   ("archives", [".zip", ".rar", ".7z", ".tar", ".gz", ".bz2"]),
   ("spreadsheets", [".xls", ".xlsx", ".csv", ".ods"]),
   ("presentations", [".ppt", ".pptx", ".odp"]),
   ("code", [".py", ".js", ".html", ".css", ".cpp", ".java", ".c", ".h", ".php", ".rb"]),
   ("executables", [".exe", ".msi", ".dmg", ".deb", ".rpm", ".app"])]

/-- `OfflineIntelligenceEngine._get_file_category` (offline_engine.py,
lines 273-279): first table entry containing the lower-cased extension,
`"other"` when none matches. -/
def get_file_category_offline (extension : String) : String :=
  ((offline_categories.find? (fun ce => strLower extension ∈ ce.2)).map (fun ce => ce.1)).getD "other"

/-- All extensions appearing in the agent table. -/
def agent_table_exts : List String := (agent_categories.map (fun ce => ce.2)).flatten

/-- All extensions appearing in the offline table. -/
def offline_table_exts : List String := (offline_categories.map (fun ce => ce.2)).flatten

/-! ## Duplicate grouping (automation_agent.py `_find_duplicates`, lines
372-383, and the identical grouping in `DocumentController.find_duplicates`,
document_controller.py lines 247-254)

A Python `dict` preserves insertion order, so `hash_groups` is modelled as
an association list in which a new key is appended at the end and a repeated
key appends the document to the existing entry. -/

/-- `hash_groups[doc.hash_value].append(doc)` with dict insertion-order
semantics. -/
def addToGroups (gs : List (String × List DocumentInfo)) (d : DocumentInfo) :
    List (String × List DocumentInfo) :=
  match gs with
  | [] => [(d.hash_value, [d])]
  | (h, ds) :: rest =>
    if h = d.hash_value then (h, ds ++ [d]) :: rest
    else (h, ds) :: addToGroups rest d

/-- The `hash_groups` dict after the grouping loop: documents with a falsy
(empty) `hash_value` are skipped. -/
def hashGroups (docs : List DocumentInfo) : List (String × List DocumentInfo) :=
  docs.foldl (fun gs d => if d.hash_value ≠ "" then addToGroups gs d else gs) []

/-- `_find_duplicates` / the duplicate dict of `find_duplicates`: only
groups with more than one member are kept. -/
def find_duplicates (docs : List DocumentInfo) : List (String × List DocumentInfo) :=
  (hashGroups docs).filter (fun g => 1 < g.2.length)

/-! ## Automatic duplicate removal (automation_agent.py
`_auto_remove_duplicates`, lines 385-409) -/

/-- One insertion step of a stable sort descending by `modified_date`:
the new element is placed after every already-sorted element with a strictly
greater key, and before the first element with a key less than or equal to
its own (stability: earlier-listed elements win ties). -/
def insertByMtimeDesc (d : DocumentInfo) : List DocumentInfo → List DocumentInfo
  | [] => [d]
  | e :: es => if d.modified_date < e.modified_date then e :: insertByMtimeDesc d es
               else d :: e :: es

/-- Python's stable `docs.sort(key = lambda x: x.modified_date,
reverse = True)`. -/
def sortByMtimeDesc : List DocumentInfo → List DocumentInfo
  | [] => []
  | d :: ds => insertByMtimeDesc d (sortByMtimeDesc ds)

/-- The documents removed from one duplicate group by
`_auto_remove_duplicates`: groups of at most one member are skipped, the
group is sorted newest-first, the first member is kept, and of the rest only
those whose size exceeds `duplicate_size_threshold_mb` megabytes are
removed. -/
def auto_remove_group (threshold_mb : Nat) (docs : List DocumentInfo) : List DocumentInfo :=
  if docs.length ≤ 1 then []
  else ((sortByMtimeDesc docs).drop 1).filter (fun d => threshold_mb * 1024 * 1024 < d.size)

/-- `_auto_remove_duplicates` over the whole duplicates dict, returning the
list of removed documents (the source returns their count and total size in
MB). -/
def auto_remove_duplicates (threshold_mb : Nat)
    (duplicates : List (String × List DocumentInfo)) : List DocumentInfo :=
  (duplicates.map (fun g => auto_remove_group threshold_mb g.2)).flatten

/-- Lexicographic (code-point) order on character lists, Python's `<` on
strings. -/
def charListLt : List Char → List Char → Bool
  | [], [] => false
  | [], _ :: _ => true
  | _ :: _, [] => false
  | a :: as, b :: bs =>
    if a.toNat < b.toNat then true
    else if b.toNat < a.toNat then false
    else charListLt as bs

/-- Python's `<` on strings. -/
def pyStrLt (s t : String) : Bool := charListLt s.data t.data

/-- Spec-side definition (spec §4.3): sort a group by `modifiedTime`
descending with ties broken by lexical `path` order, then drop the first
member.  Used only to compare the specified tie-break with the code. -/
def insertBySpecOrder (d : DocumentInfo) : List DocumentInfo → List DocumentInfo
  | [] => [d]
  | e :: es =>
    if e.modified_date > d.modified_date ∨
        (e.modified_date = d.modified_date ∧ pyStrLt e.path d.path = true) then
      e :: insertBySpecOrder d es
    else d :: e :: es

/-- Spec-side sort of a duplicate group (spec §4.3). -/
def specSortGroup : List DocumentInfo → List DocumentInfo
  | [] => []
  | d :: ds => insertBySpecOrder d (specSortGroup ds)

/-- Spec-side removal candidates: all members except the first of the
spec-sorted group (spec §4.3). -/
def specRemovalCandidates (docs : List DocumentInfo) : List DocumentInfo :=
  (specSortGroup docs).drop 1

/-! ## Archival selection (automation_agent.py `_archive_old_files`, lines
506-539) -/

/-- The record selection of `_archive_old_files`:
`cutoff_date = datetime.now() - timedelta(days = threshold)` and
`[doc for doc in documents if doc.modified_date < cutoff_date]`.
`now` is the run timestamp in Unix seconds. -/
def archive_old_files_selection (now : Int) (old_file_threshold_days : Nat)
    (documents : List DocumentInfo) : List DocumentInfo :=
  documents.filter (fun d => d.modified_date < now - old_file_threshold_days * 86400)

/-! ## Duplicate summary (document_controller.py `find_duplicates`, lines
241-282) -/

/-- The summary dict built by `DocumentController.find_duplicates`.  Space
is kept in bytes; the source divides by 1024² to report MB, which does not
affect which groups contribute. -/
structure DuplicateSummary where
  duplicate_groups : Nat
  total_duplicate_files : Nat
  potential_space_saved_bytes : Nat
deriving DecidableEq, Repr

/-- `(len(docs) - 1) * docs[0].size` for one duplicate group. -/
def groupSpaceBytes (g : String × List DocumentInfo) : Nat :=
  match g.2 with
  | [] => 0
  | d :: _ => (g.2.length - 1) * d.size

/-- The counting part of `find_duplicates`: `duplicate_groups` and
`total_duplicate_files` range over all groups, while
`potential_space_saved_mb` is accumulated only inside the loop over
`list(duplicates.items())[:5]`. -/
def duplicate_summary (dups : List (String × List DocumentInfo)) : DuplicateSummary :=
  { duplicate_groups := dups.length
    total_duplicate_files := (dups.map (fun g => g.2.length)).sum
    potential_space_saved_bytes :=
      (dups.take 5).foldl (fun acc g => acc + groupSpaceBytes g) 0 }

/-! ## The scanner (document_controller.py `DocumentScanner`, lines 104-158)

The directory tree under a scan root is modelled as a finite tree.  Each
node carries its base name, the metadata of the regular files directly
inside it (what `DocumentAnalyzer.analyze_document` would return for them),
the targets of symbolic links to directories, and the subdirectories.
`os.walk` is called without `followlinks = True`, so it enumerates
symlinked directories but never descends into them: in the model the walker
simply never looks at `links`.  Walk order is top-down: a directory's files
are processed before its subdirectories, subdirectories in list order. -/

inductive FTree where
  | node (name : String) (files : List DocumentInfo) (links : List String) (subs : List FTree)
deriving Repr

/-- The default `excluded_dirs` of `DocumentScanner.__init__`
(document_controller.py, lines 107-111). -/
def default_excluded_dirs : List String :=
  [".git", ".svn", "__pycache__", "node_modules", ".vscode", "AppData", "System32", "Windows"]

/-- `DocumentScanner.should_skip_directory` (document_controller.py, lines
114-117): lower-case the directory's base name and test whether any
configured pattern occurs in it as a substring.  Note that only the
directory name is lower-cased, not the patterns. -/
def should_skip_directory (excluded_dirs : List String) (dir_name : String) : Bool :=
  excluded_dirs.any (fun excluded => pyIn excluded (strLower dir_name))

/-- Mutable state of the `scan_directory` loop: the collected records, the
`file_count` (always `records.length`), whether the "Reached maximum file
limit" warning was logged, and whether the outer `break` has fired. -/
structure ScanState where
  records : List DocumentInfo
  warned : Bool
  stopped : Bool
deriving Repr

/-- Fire the outer `break` of the walk loop (lines 151-152). -/
def markStopped (st : ScanState) : ScanState :=
  { records := st.records, warned := st.warned, stopped := true }

/-- The inner `for file in files` loop of `scan_directory` (lines 133-149):
each file is checked against the cap before being processed; hitting the cap
logs the warning and breaks out of the file loop. -/
def scanFiles (max_files : Nat) : List DocumentInfo → ScanState → ScanState
  | [], st => st
  | f :: fs, st =>
    if max_files ≤ st.records.length then { st with warned := true }
    else scanFiles max_files fs { st with records := st.records ++ [f] }

mutual
/-- Visiting one directory yielded by `os.walk` (lines 127-152): when the
outer `break` has fired nothing further happens; an excluded directory is
skipped together with its whole subtree (`dirs.clear()`); otherwise the
directory's files are scanned, the outer cap check may fire the `break`,
and the subdirectories are visited in order.  Symlinked directories
(`links`) are never descended into. -/
def scanTree (excluded_dirs : List String) (max_files : Nat) : FTree → ScanState → ScanState
  | .node name files _links subs, st =>
    if st.stopped then st
    else if should_skip_directory excluded_dirs name then st
    else
      let st1 := scanFiles max_files files st
      let st2 := if max_files ≤ st1.records.length then markStopped st1 else st1
      scanForest excluded_dirs max_files subs st2
/-- Visiting a list of sibling subdirectories in order. -/
def scanForest (excluded_dirs : List String) (max_files : Nat) :
    List FTree → ScanState → ScanState
  | [], st => st
  | t :: ts, st =>
    scanForest excluded_dirs max_files ts (scanTree excluded_dirs max_files t st)
end

/-- `DocumentScanner.scan_directory` (document_controller.py, lines
119-158). -/
def scan_directory (excluded_dirs : List String) (max_files : Nat) (root : FTree) : ScanState :=
  scanTree excluded_dirs max_files root { records := [], warned := false, stopped := false }

mutual
/-- Number of regular files in the parts of the tree that the traversal
does not prune: an excluded directory contributes nothing, symlinked
directories are never entered. -/
def visibleCount (excluded_dirs : List String) : FTree → Nat
  | .node name files _links subs =>
    if should_skip_directory excluded_dirs name then 0
    else files.length + visibleCountF excluded_dirs subs
/-- `visibleCount` over a list of subdirectories. -/
def visibleCountF (excluded_dirs : List String) : List FTree → Nat
  | [] => 0
  | t :: ts => visibleCount excluded_dirs t + visibleCountF excluded_dirs ts
end

mutual
/-- Total number of regular files in the tree, symlinks not followed. -/
def totalFileCount : FTree → Nat
  | .node _ files _ subs => files.length + totalFileCountF subs
/-- `totalFileCount` over a list of subdirectories. -/
def totalFileCountF : List FTree → Nat
  | [] => 0
  | t :: ts => totalFileCount t + totalFileCountF ts
end

mutual
/-- Erase every symbolic-link entry from the tree. -/
def pruneLinks : FTree → FTree
  | .node name files _links subs => .node name files [] (pruneLinksF subs)
/-- `pruneLinks` over a list of subdirectories. -/
def pruneLinksF : List FTree → List FTree
  | [] => []
  | t :: ts => pruneLinks t :: pruneLinksF ts
end

/-! ## Timestamps (`datetime.fromtimestamp` / `strftime`)

`modified_date` is a Unix timestamp in seconds.  `strftime("%Y")` and
`strftime("%m-%B")` need the civil (proleptic Gregorian) calendar; the
standard civil-from-days conversion is used, with floor division. -/

/-- Civil date `(year, month, day)` from a count of days since 1970-01-01
(Howard Hinnant's `civil_from_days` algorithm). -/
def civilFromDays (z0 : Int) : Int × Int × Int :=
  let z := z0 + 719468
  let era := Int.fdiv z 146097
  let doe := z - era * 146097
  let yoe := Int.fdiv (doe - Int.fdiv doe 1460 + Int.fdiv doe 36524 - Int.fdiv doe 146096) 365
  let y := yoe + era * 400
  let doy := doe - (365 * yoe + Int.fdiv yoe 4 - Int.fdiv yoe 100)
  let mp := Int.fdiv (5 * doy + 2) 153
  let d := doy - Int.fdiv (153 * mp + 2) 5 + 1
  let m := mp + (if mp < 10 then 3 else -9)
  (y + (if m ≤ 2 then 1 else 0), m, d)

/-- Decimal rendering of an integer (Python `str`/f-string). -/
def intDecimal (i : Int) : String :=
  if i < 0 then "-" ++ Nat.repr i.natAbs else Nat.repr i.natAbs

/-- English month names, for `%B`. -/
def monthNames : List String :=
  ["January", "February", "March", "April", "May", "June", "July",
   "August", "September", "October", "November", "December"]

/-- `doc.modified_date.strftime("%Y")`. -/
def strftime_Y (ts : Int) : String :=
  intDecimal (civilFromDays (Int.fdiv ts 86400)).1

/-- `doc.modified_date.strftime("%m-%B")` (zero-padded month number, dash,
month name). -/
def strftime_mB (ts : Int) : String :=
  let m := (civilFromDays (Int.fdiv ts 86400)).2.1
  (if m < 10 then "0" ++ intDecimal m else intDecimal m) ++ "-" ++
    (monthNames.getD (m - 1).toNat "")

/-! ## Filesystem state for the moving code

`files` and `dirs` are the currently existing file and directory paths.
`os.path.exists` is membership in either; `os.makedirs(..., exist_ok=True)`
adds a directory; `shutil.move` removes the source file and creates the
destination. -/

structure FileSystem where
  files : List String
  dirs : List String
deriving DecidableEq, Repr

/-- `os.path.exists`. -/
def fsExists (fs : FileSystem) (p : String) : Bool :=
  p ∈ fs.files ∨ p ∈ fs.dirs

/-- All occupied paths. -/
def occupiedPaths (fs : FileSystem) : List String := fs.files ++ fs.dirs

/-- `os.makedirs(d, exist_ok=True)` (parent components are irrelevant to
every claim and are not tracked). -/
def makedirs (fs : FileSystem) (d : String) : FileSystem :=
  if d ∈ fs.dirs then fs else { fs with dirs := fs.dirs ++ [d] }

/-- `shutil.move src dst` once the source is known to exist: the source
path disappears, the destination path exists. -/
def moveFile (fs : FileSystem) (src dst : String) : FileSystem :=
  { fs with files := dst :: fs.files.erase src }

/-! ## Destination-conflict resolution

The loop `while os.path.exists(target_path): target_path =
os.path.join(target_dir, f"(stem)_(counter)(ext)"); counter += 1` shared by
`_quick_organize` (lines 437-442), `_full_organize` (lines 472-477) and
`_archive_old_files` (lines 525-530).  The unbounded `while` is modelled
with enough fuel to cover every occupied path plus one; the lemma
`findFreeCounter_free` below shows the fuel always suffices, so the
fuel-exhausted branch is unreachable. -/

/-- The candidate path for a given counter value:
`os.path.join(target_dir, f"(stem)_(counter)(ext)")`. -/
def candTarget (target_dir name : String) (counter : Nat) : String :=
  pathJoin target_dir ((splitext name).1 ++ "_" ++ Nat.repr counter ++ (splitext name).2)

/-- Scan counters `k, k+1, ...` (up to `fuel` of them) and return the first
whose candidate path is unoccupied; returns the last tried counter when the
fuel runs out (shown unreachable). -/
def findFreeCounter (occupied : List String) (cand : Nat → String) : Nat → Nat → Nat
  | 0, k => k
  | fuel + 1, k => if cand k ∈ occupied then findFreeCounter occupied cand fuel (k + 1) else k

/-- The whole conflict-resolution loop: the first path of
`join(dir, name), cand 1, cand 2, ...` that does not exist. -/
def resolve_target_path (fs : FileSystem) (target_dir name : String) : String :=
  let base := pathJoin target_dir name
  if base ∈ occupiedPaths fs then
    candTarget target_dir name
      (findFreeCounter (occupiedPaths fs) (candTarget target_dir name)
        ((occupiedPaths fs).length + 1) 1)
  else base

/-! ## The organization passes (automation_agent.py `_quick_organize`,
lines 411-450, and `_full_organize`, lines 452-485)

Both passes iterate over the scanned documents; per document they compute a
target directory (or skip the document), optionally create it, resolve the
destination name against the current filesystem, and move eagerly.  A
failing move (`shutil.move` raising because the source vanished) is caught,
logged, and the loop continues.  The two passes differ only in how the
target directory is derived and in whether it is created inside the loop,
so they share `organize_step`. -/

structure OrganizeState where
  fs : FileSystem
  moves : List (String × String)
  errors : List String
  organized_count : Nat
deriving DecidableEq, Repr

/-- The body of the per-document loop shared by `_quick_organize` and
`_full_organize`: skip documents without a target; create the target
directory when the pass does so inside the loop (`_full_organize`); resolve
the destination; `shutil.move` succeeds iff the source still exists,
otherwise the exception is recorded and the loop continues.  Note the
directory creation and destination resolution happen before the move can
fail. -/
def organize_step (create_dir : Bool) (target_dir_of : DocumentInfo → Option String)
    (st : OrganizeState) (doc : DocumentInfo) : OrganizeState :=
  match target_dir_of doc with
  | none => st
  | some tdir =>
    let fs1 := if create_dir then makedirs st.fs tdir else st.fs
    let dest := resolve_target_path fs1 tdir doc.name
    if doc.path ∈ fs1.files then
      { fs := moveFile fs1 doc.path dest
        moves := st.moves ++ [(doc.path, dest)]
        errors := st.errors
        organized_count := st.organized_count + 1 }
    else
      { st with fs := fs1, errors := st.errors ++ [doc.path] }

/-- Target directory of `_full_organize`:
`os.path.join(directory, "Organized", category, year, month)`; documents
whose category is `None` are skipped (lines 463-465). -/
def full_target_dir (directory : String) (doc : DocumentInfo) : Option String :=
  (get_file_category_agent doc.extension).map (fun category =>
    pathJoin (pathJoin (pathJoin (pathJoin directory "Organized") category)
      (strftime_Y doc.modified_date)) (strftime_mB doc.modified_date))

/-- `_full_organize` (automation_agent.py, lines 452-485). -/
def full_organize (directory : String) (fs : FileSystem) (documents : List DocumentInfo) :
    OrganizeState :=
  documents.foldl (organize_step true (full_target_dir directory))
    { fs := fs, moves := [], errors := [], organized_count := 0 }

/-- The `org_folders` table of `_quick_organize` (lines 416-422), in dict
insertion order. -/
def org_folders : List (String × List String) :=
  [("Documents", [".pdf", ".doc", ".docx", ".txt", ".rtf"]),
   ("Images", [".jpg", ".jpeg", ".png", ".gif", ".bmp", ".tiff"]),
   ("Archives", [".zip", ".rar", ".7z", ".tar", ".gz"]),
   ("Spreadsheets", [".xls", ".xlsx", ".csv"]),
   ("Presentations", [".ppt", ".pptx"])]

/-- Target directory of `_quick_organize`: the first `org_folders` entry
whose extension list contains the document's lower-cased extension. -/
def quick_target_dir (directory : String) (doc : DocumentInfo) : Option String :=
  (org_folders.find? (fun fe => strLower doc.extension ∈ fe.2)).map
    (fun fe => pathJoin directory fe.1)

/-- `_quick_organize` (automation_agent.py, lines 411-450): the five
folders are created up front (lines 425-427), then the documents are
processed. -/
def quick_organize (directory : String) (fs : FileSystem) (documents : List DocumentInfo) :
    OrganizeState :=
  let fs0 := org_folders.foldl (fun fs fe => makedirs fs (pathJoin directory fe.1)) fs
  documents.foldl (organize_step false (quick_target_dir directory))
    { fs := fs0, moves := [], errors := [], organized_count := 0 }

/-! ## `move_duplicates.py` (`move_duplicate_files`, lines 26-115)

The duplicate groups arrive as lists of `(name, path)` entries parsed from
the JSON summary.  The first entry of each group is kept; for each
remaining entry the source is checked with `os.path.exists` *before* any
action and silently skipped when missing; otherwise the entry is moved into
the review folder under `(stem)_duplicate_(i+1)(ext)`. -/

structure MoveDupState where
  fs : FileSystem
  moved : Nat
  skipped_missing : Nat
deriving DecidableEq, Repr

/-- One iteration of `for i, duplicate in enumerate(duplicates)` (lines
74-96). -/
def move_dup_entry (review_folder : String) (st : MoveDupState)
    (idup : Nat × (String × String)) : MoveDupState :=
  if idup.2.2 ∈ st.fs.files then
    let parts := splitext idup.2.1
    let new_name := parts.1 ++ "_duplicate_" ++ Nat.repr (idup.1 + 1) ++ parts.2
    let dest := pathJoin review_folder new_name
    { st with fs := moveFile st.fs idup.2.2 dest, moved := st.moved + 1 }
  else
    { st with skipped_missing := st.skipped_missing + 1 }

/-- One duplicate group (lines 62-96): groups with fewer than two entries
are skipped; the first file is kept and the rest are processed in order. -/
def move_dup_group (review_folder : String) (st : MoveDupState)
    (files : List (String × String)) : MoveDupState :=
  if files.length < 2 then st
  else (files.drop 1).enum.foldl (move_dup_entry review_folder) st

/-- `move_duplicate_files` (move_duplicates.py, lines 26-115): the review
folder is created once, then every group is processed. -/
def move_duplicate_files (directory : String) (fs : FileSystem)
    (groups : List (List (String × String))) : MoveDupState :=
  let review := pathJoin directory "review_duplicate"
  groups.foldl (move_dup_group review)
    { fs := makedirs fs review, moved := 0, skipped_missing := 0 }

/-! # Helper lemmas -/

/-- `find?` only looks at the predicate's values on the list. -/
theorem find?_congr_on {α : Type} (p q : α → Bool) :
    ∀ (l : List α), (∀ a ∈ l, p a = q a) → l.find? p = l.find? q
  | [], _ => rfl
  | a :: l, h => by
    have ha := h a (List.mem_cons_self a l)
    by_cases hpa : p a = true
    · rw [List.find?_cons_of_pos _ hpa, List.find?_cons_of_pos _ (ha ▸ hpa)]
    · have hqa : ¬ q a = true := fun hq => hpa (ha ▸ hq)
      rw [List.find?_cons_of_neg _ hpa, List.find?_cons_of_neg _ hqa]
      exact find?_congr_on p q l (fun b hb => h b (List.mem_cons_of_mem a hb))

/-- Folding an addition over a list is the starting value plus the sum. -/
theorem foldl_add_eq_sum {α : Type} (f : α → Nat) :
    ∀ (l : List α) (a : Nat), l.foldl (fun acc g => acc + f g) a = a + (l.map f).sum
  | [], a => by simp
  | g :: l, a => by
    rw [List.foldl_cons, foldl_add_eq_sum f l (a + f g)]
    simp [Nat.add_assoc]

/-! # Claim C7: archival selection -/

/-- A document whose `modified_date` lies `days_ago` days before the run
timestamp (used to state the spec's 400-day/300-day scenario for any run
timestamp). -/
def agedDoc (now : Int) (days_ago : Nat) : DocumentInfo :=
  { path := "/m/f" ++ Nat.repr days_ago, name := "f", size := 1
    modified_date := now - days_ago * 86400, file_type := "", extension := ".dat"
    hash_value := "" }

/-- C7 — confirmed.  `_archive_old_files` selects a record iff its
`modified_date` is strictly older than the run timestamp minus
`cutoffDays` (in seconds); the selection reads nothing but
`modified_date`, so it is invariant under any record transformation that
preserves `modified_date` (in particular changes of category or
extension); and with a 365-day cutoff a file modified 400 days before the
run is selected while one modified 300 days before is not. -/
theorem C7_archive_selection (now : Int) (days : Nat) (docs : List DocumentInfo) :
    (∀ d, d ∈ archive_old_files_selection now days docs ↔
      (d ∈ docs ∧ d.modified_date < now - days * 86400)) ∧
    (∀ f : DocumentInfo → DocumentInfo, (∀ d, (f d).modified_date = d.modified_date) →
      archive_old_files_selection now days (docs.map f) =
        (archive_old_files_selection now days docs).map f) ∧
    archive_old_files_selection now 365 [agedDoc now 400, agedDoc now 300] =
      [agedDoc now 400] := by
  refine ⟨?_, ?_, ?_⟩
  · intro d
    simp [archive_old_files_selection, List.mem_filter]
  · intro f hf
    unfold archive_old_files_selection
    rw [List.filter_map]
    congr 1
    apply List.filter_congr
    intro d _
    simp [Function.comp, hf d]
  · have h1 : now - (400 : Nat) * 86400 < now - (365 : Nat) * 86400 := by
      push_cast; omega
    have h2 : ¬ (now - (300 : Nat) * 86400 < now - (365 : Nat) * 86400) := by
      push_cast; omega
    simp [archive_old_files_selection, agedDoc, List.filter_cons, h1, h2]

/-- C7 witness: the theorem applied at a concrete input, discharging the
invariance hypothesis with the extension-scrambling map. -/
theorem C7_archive_selection_witness :
    ((agedDoc 0 400 ∈ archive_old_files_selection 0 365 [agedDoc 0 400, agedDoc 0 300] ↔
      (agedDoc 0 400 ∈ [agedDoc 0 400, agedDoc 0 300] ∧
        (agedDoc 0 400).modified_date < 0 - 365 * 86400)) ∧
     archive_old_files_selection 0 365
        ([agedDoc 0 400].map (fun d => { d with extension := ".zzz" })) =
      (archive_old_files_selection 0 365 [agedDoc 0 400]).map
        (fun d => { d with extension := ".zzz" })) :=
  ⟨(C7_archive_selection 0 365 [agedDoc 0 400, agedDoc 0 300]).1 (agedDoc 0 400),
   (C7_archive_selection 0 365 [agedDoc 0 400]).2.1
     (fun d => { d with extension := ".zzz" }) (fun _ => rfl)⟩

/-! # Claim C5: category derivation -/

/-- C5 counterexample.  The claim asserts one fixed table whose categories
include `executables`, with every unknown extension mapping to `Other`.
The cited `automation_agent._get_file_category` has no executables entry
and returns `None` rather than a category: on the concrete extension
`".exe"` the two cited implementations disagree, and the agent's result is
`none`, not an `Other`/executables category. -/
theorem C5_counterexample :
    get_file_category_agent ".exe" = none ∧
    get_file_category_offline ".exe" = "executables" ∧
    get_file_category_agent ".xyz" = none := by
  refine ⟨by decide, by decide, by decide⟩

/-- C5 — corrected.  Category derivation in each implementation is a pure
function of the lower-cased extension against that implementation's fixed
table: both functions depend only on `strLower extension`; the
offline-engine table has exactly the categories documents, images, videos,
audio, archives, spreadsheets, presentations, code and executables, with
every unknown extension mapping to `"other"`; the automation-agent table
has only the capitalised categories Documents, Images, Videos, Audio,
Archives, Spreadsheets, Presentations and Code — no executables entry —
and maps every unknown extension to `none` (the caller then skips the
file). -/
theorem C5_category_tables (ext : String) :
    (∀ ext2 : String, strLower ext = strLower ext2 →
      get_file_category_agent ext = get_file_category_agent ext2 ∧
      get_file_category_offline ext = get_file_category_offline ext2) ∧
    get_file_category_offline ext ∈
      ["documents", "images", "videos", "audio", "archives", "spreadsheets",
       "presentations", "code", "executables", "other"] ∧
    (strLower ext ∉ offline_table_exts → get_file_category_offline ext = "other") ∧
    (strLower ext ∉ agent_table_exts → get_file_category_agent ext = none) ∧
    (∀ c : String, get_file_category_agent ext = some c →
      c ∈ ["Documents", "Images", "Videos", "Audio", "Archives", "Spreadsheets",
           "Presentations", "Code"]) := by
  refine ⟨?_, ?_, ?_, ?_, ?_⟩
  · intro ext2 h
    unfold get_file_category_agent get_file_category_offline
    rw [h]
    exact ⟨rfl, rfl⟩
  · unfold get_file_category_offline
    cases hf : offline_categories.find? (fun ce => strLower ext ∈ ce.2) with
    | none => simp
    | some ce =>
      have hmem := List.mem_of_find?_eq_some hf
      have htabl : ∀ p ∈ offline_categories,
          p.1 ∈ ["documents", "images", "videos", "audio", "archives", "spreadsheets",
                 "presentations", "code", "executables", "other"] := by decide
      simpa using htabl ce hmem
  · intro hnot
    unfold get_file_category_offline
    have hf : offline_categories.find? (fun ce => strLower ext ∈ ce.2) = none := by
      apply List.find?_eq_none.mpr
      intro p hp
      have hsub : ∀ q ∈ offline_categories, ∀ x ∈ q.2, x ∈ offline_table_exts := by decide
      simpa using fun hmem => hnot (hsub p hp _ hmem)
    rw [hf]
    rfl
  · intro hnot
    unfold get_file_category_agent
    have hf : agent_categories.find? (fun ce => strLower ext ∈ ce.2) = none := by
      apply List.find?_eq_none.mpr
      intro p hp
      have hsub : ∀ q ∈ agent_categories, ∀ x ∈ q.2, x ∈ agent_table_exts := by decide
      simpa using fun hmem => hnot (hsub p hp _ hmem)
    rw [hf]
    rfl
  · intro c hc
    unfold get_file_category_agent at hc
    cases hf : agent_categories.find? (fun ce => strLower ext ∈ ce.2) with
    | none => rw [hf] at hc; simp at hc
    | some ce =>
      rw [hf] at hc
      have hmem := List.mem_of_find?_eq_some hf
      have htabl : ∀ p ∈ agent_categories,
          p.1 ∈ ["Documents", "Images", "Videos", "Audio", "Archives", "Spreadsheets",
                 "Presentations", "Code"] := by decide
      have : c = ce.1 := by simpa using hc.symm
      subst this
      exact htabl ce hmem

/-- C5 witness: the amended theorem applied at a concrete extension,
discharging each hypothesis concretely: `".PDF"` and `".pdf"` lower-case
equal, `".xyz"` absent from both tables, and `".pdf"` classified as
`Documents` by the agent table. -/
theorem C5_category_tables_witness :
    (get_file_category_agent ".PDF" = get_file_category_agent ".pdf" ∧
      get_file_category_offline ".PDF" = get_file_category_offline ".pdf") ∧
    get_file_category_offline ".xyz" = "other" ∧
    get_file_category_agent ".xyz" = none ∧
    "Documents" ∈ ["Documents", "Images", "Videos", "Audio", "Archives", "Spreadsheets",
                   "Presentations", "Code"] :=
  ⟨(C5_category_tables ".PDF").1 ".pdf" (by decide),
   (C5_category_tables ".xyz").2.2.1 (by decide),
   (C5_category_tables ".xyz").2.2.2.1 (by decide),
   (C5_category_tables ".pdf").2.2.2.2 "Documents" (by decide)⟩

/-! # Claim C10: the 5-group cap on reported reclaimable space -/

/-- C10 — confirmed.  In `find_duplicates`'s summary, `duplicate_groups`
and `total_duplicate_files` are computed over all duplicate groups, while
`potential_space_saved` is the sum of `(group size - 1) * first member's
size` over at most the first 5 groups: it coincides with the summary of
just `dups.take 5`, so groups beyond the first five contribute nothing to
the reported reclaimable space. -/
theorem C10_space_only_first_five (dups : List (String × List DocumentInfo)) :
    (duplicate_summary dups).duplicate_groups = dups.length ∧
    (duplicate_summary dups).total_duplicate_files =
      (dups.map (fun g => g.2.length)).sum ∧
    (duplicate_summary dups).potential_space_saved_bytes =
      ((dups.take 5).map groupSpaceBytes).sum ∧
    (duplicate_summary dups).potential_space_saved_bytes =
      (duplicate_summary (dups.take 5)).potential_space_saved_bytes := by
  refine ⟨rfl, rfl, ?_, ?_⟩
  · show (dups.take 5).foldl (fun acc g => acc + groupSpaceBytes g) 0 = _
    rw [foldl_add_eq_sum]
    exact Nat.zero_add _
  · show (dups.take 5).foldl (fun acc g => acc + groupSpaceBytes g) 0 =
      ((dups.take 5).take 5).foldl (fun acc g => acc + groupSpaceBytes g) 0
    rw [List.take_take]
    simp

/-! # Claim C6: case-insensitive directory exclusion (code bug)

`should_skip_directory` lower-cases the directory name but compares it with
the raw configured patterns.  The default pattern list contains the
mixed-case entries `"AppData"`, `"System32"` and `"Windows"`, which can
never occur inside a lower-cased string, so the directories those defaults
are meant to exclude are scanned after all.  The spec-side definition below
follows the spec's words ("a configurable set of excluded directory-name
substrings (case-insensitive)"): both sides are lower-cased. -/

/-- Modelled from the spec (§4.2 Scanner): case-insensitive substring
match between a configured pattern and a directory base name. -/
def spec_case_insensitive_skip (excluded_dirs : List String) (dir_name : String) : Bool :=
  excluded_dirs.any (fun excluded => pyIn (strLower excluded) (strLower dir_name))

/-- A file inside an `AppData` directory, for the failing scan below. -/
def appdataFile : DocumentInfo :=
  { path := "/u/AppData/cache.bin", name := "cache.bin", size := 7, modified_date := 0
    file_type := "", extension := ".bin", hash_value := "hx" }

/-- C6 — code bug.  A directory named `AppData` matches the configured
excluded entry `"AppData"` case-insensitively (the spec-side check says
skip), but `should_skip_directory` returns `false` on it because only the
directory name is lower-cased and the mixed-case pattern `"AppData"`
cannot occur in a lower-cased string — so the scan descends into the
directory and collects the records inside it. -/
theorem C6_appdata_not_skipped :
    "AppData" ∈ default_excluded_dirs ∧
    spec_case_insensitive_skip default_excluded_dirs "AppData" = true ∧
    should_skip_directory default_excluded_dirs "AppData" = false ∧
    (scan_directory default_excluded_dirs 10
      (FTree.node "u" [] [] [FTree.node "AppData" [appdataFile] [] []])).records =
      [appdataFile] := by
  refine ⟨by decide, by decide, by decide, by decide⟩

/-! # Claim C4: duplicate grouping

Characterisation of the insertion-ordered association list built by the
grouping loop: its keys are free of duplicates and never empty, and the
entry at key `h` is exactly the sublist of scanned documents whose hash is
`h`. -/

/-- The group stored under key `h` (empty when the key is absent). -/
def groupOf (h : String) : List (String × List DocumentInfo) → List DocumentInfo
  | [] => []
  | g :: rest => if g.1 = h then g.2 else groupOf h rest

theorem addToGroups_keys (gs : List (String × List DocumentInfo)) (d : DocumentInfo) :
    (addToGroups gs d).map Prod.fst =
      if d.hash_value ∈ gs.map Prod.fst then gs.map Prod.fst
      else gs.map Prod.fst ++ [d.hash_value] := by
  induction gs with
  | nil => simp [addToGroups]
  | cons g rest ih =>
    obtain ⟨k, ds⟩ := g
    by_cases hk : k = d.hash_value
    · subst hk
      simp [addToGroups]
    · simp only [addToGroups, if_neg hk, List.map_cons, ih]
      by_cases hmem : d.hash_value ∈ rest.map Prod.fst
      · simp [hmem, hk, Ne.symm hk]
      · simp [hmem, hk, Ne.symm hk]

theorem addToGroups_groupOf (gs : List (String × List DocumentInfo)) (d : DocumentInfo)
    (h : String) :
    groupOf h (addToGroups gs d) =
      if h = d.hash_value then groupOf h gs ++ [d] else groupOf h gs := by
  induction gs with
  | nil =>
    by_cases hh : h = d.hash_value
    · simp [addToGroups, groupOf, hh]
    · have hdh : ¬ d.hash_value = h := fun he => hh he.symm
      simp [addToGroups, groupOf, hh, hdh]
  | cons g rest ih =>
    obtain ⟨k, ds⟩ := g
    by_cases hk : k = d.hash_value
    · by_cases hh : h = k
      · simp [addToGroups, if_pos hk, groupOf, hh, hk, hh.trans hk]
      · have hhd : ¬ h = d.hash_value := fun he => hh (he.trans hk.symm)
        have hkh : ¬ k = h := fun he => hh he.symm
        simp [addToGroups, if_pos hk, groupOf, hkh, hhd]
    · by_cases hh : h = k
      · have hdh : ¬ h = d.hash_value := fun he => hk (hh.symm.trans he)
        simp [addToGroups, if_neg hk, groupOf, hh, hdh]
      · simp only [addToGroups, if_neg hk, groupOf, if_neg (fun he : k = h => hh he.symm)]
        exact ih

/-- Invariant of the grouping fold: the effect of the whole loop on one
key's group, provided the key is not the empty hash. -/
theorem hashGroups_fold_groupOf (h : String) (hne : h ≠ "") :
    ∀ (docs : List DocumentInfo) (gs : List (String × List DocumentInfo)),
      groupOf h (docs.foldl (fun gs d => if d.hash_value ≠ "" then addToGroups gs d else gs) gs) =
        groupOf h gs ++ docs.filter (fun d => d.hash_value = h)
  | [], gs => by simp
  | d :: docs, gs => by
    rw [List.foldl_cons, hashGroups_fold_groupOf h hne docs]
    by_cases hd : d.hash_value = ""
    · have hnh : ¬ ("" = h) := fun he => hne he.symm
      simp [hd, List.filter_cons, hnh]
    · rw [if_pos (by simpa using hd), addToGroups_groupOf]
      by_cases hdh : h = d.hash_value
      · simp [List.filter_cons, hdh, if_pos hdh.symm]
      · have hdh2 : ¬ d.hash_value = h := fun he => hdh he.symm
        simp [List.filter_cons, hdh, hdh2]

/-- Each key's group in `hashGroups` is exactly the hash class of that key
among the scanned documents. -/
theorem hashGroups_groupOf (docs : List DocumentInfo) (h : String) (hne : h ≠ "") :
    groupOf h (hashGroups docs) = docs.filter (fun d => d.hash_value = h) := by
  have := hashGroups_fold_groupOf h hne docs []
  simpa [hashGroups, groupOf] using this

/-- The grouping fold keeps the dict keys duplicate-free and never creates
an empty-hash key. -/
theorem hashGroups_fold_keys :
    ∀ (docs : List DocumentInfo) (gs : List (String × List DocumentInfo)),
      (gs.map Prod.fst).Nodup → "" ∉ gs.map Prod.fst →
      ((docs.foldl (fun gs d => if d.hash_value ≠ "" then addToGroups gs d else gs) gs).map
          Prod.fst).Nodup ∧
        "" ∉ (docs.foldl (fun gs d => if d.hash_value ≠ "" then addToGroups gs d else gs) gs).map
          Prod.fst
  | [], gs => fun h1 h2 => ⟨h1, h2⟩
  | d :: docs, gs => fun h1 h2 => by
    rw [List.foldl_cons]
    by_cases hd : d.hash_value = ""
    · rw [if_neg (by simpa using hd)]
      exact hashGroups_fold_keys docs gs h1 h2
    · rw [if_pos (by simpa using hd)]
      apply hashGroups_fold_keys docs
      · rw [addToGroups_keys]
        by_cases hmem : d.hash_value ∈ gs.map Prod.fst
        · simpa [hmem] using h1
        · simp only [if_neg hmem]
          simp [List.nodup_append, h1, hmem]
      · rw [addToGroups_keys]
        by_cases hmem : d.hash_value ∈ gs.map Prod.fst
        · simpa [hmem] using h2
        · simp only [if_neg hmem]
          have hds : ¬ ("" = d.hash_value) := fun he => hd he.symm
          simp [h2, hds]

/-- With duplicate-free keys, membership of an entry determines the group
at its key. -/
theorem groupOf_of_mem :
    ∀ (gs : List (String × List DocumentInfo)), ((gs.map Prod.fst).Nodup) →
      ∀ (k : String) (g : List DocumentInfo), (k, g) ∈ gs → groupOf k gs = g
  | [], _, k, g => fun hm => by simp at hm
  | p :: rest, hnd, k, g => fun hm => by
    rw [List.map_cons] at hnd
    obtain ⟨hnd1, hnd2⟩ := List.nodup_cons.mp hnd
    rcases List.mem_cons.mp hm with heq | hmem
    · rw [← heq]
      simp [groupOf]
    · have hk : k ∈ rest.map Prod.fst :=
        List.mem_map.mpr ⟨(k, g), hmem, rfl⟩
      have hp1 : ¬ (p.1 = k) := fun he => hnd1 (he ▸ hk)
      simp only [groupOf, if_neg hp1]
      exact groupOf_of_mem rest hnd2 k g hmem

/-- A nonempty group is an actual entry of the association list. -/
theorem groupOf_ne_nil_mem :
    ∀ (gs : List (String × List DocumentInfo)) (k : String),
      groupOf k gs ≠ [] → (k, groupOf k gs) ∈ gs
  | [], k => fun h => absurd rfl h
  | (p1, p2) :: rest, k => fun h => by
    by_cases hp : p1 = k
    · subst hp
      simp only [groupOf, if_pos rfl] at h ⊢
      exact List.mem_cons_self _ _
    · simp only [groupOf, if_neg hp] at h ⊢
      exact List.mem_cons_of_mem _ (groupOf_ne_nil_mem rest k h)

/-- With duplicate-free keys and hash-coherent groups, the only entry
containing a given document is the one at its hash. -/
theorem filter_mem_eq_singleton :
    ∀ (gs : List (String × List DocumentInfo)), ((gs.map Prod.fst).Nodup) →
      (∀ p ∈ gs, ∀ e ∈ p.2, e.hash_value = p.1) →
      ∀ (h0 : String) (g0 : List DocumentInfo) (d : DocumentInfo),
        (h0, g0) ∈ gs → d ∈ g0 → d.hash_value = h0 →
        gs.filter (fun p => d ∈ p.2) = [(h0, g0)]
  | [], _, _, h0, g0, d => fun hm _ _ => by simp at hm
  | p :: rest, hnd, hcoh, h0, g0, d => fun hm hd hdh => by
    rw [List.map_cons] at hnd
    obtain ⟨hnd1, hnd2⟩ := List.nodup_cons.mp hnd
    rcases List.mem_cons.mp hm with heq | hmem
    · subst heq
      rw [List.filter_cons]
      rw [if_pos (by simpa using hd)]
      congr 1
      rw [List.filter_eq_nil_iff]
      intro q hq
      simp only [decide_eq_true_eq]
      intro hdq
      have hq1 : d.hash_value = q.1 := hcoh q (List.mem_cons_of_mem _ hq) d hdq
      exact hnd1 (by
        have : q.1 ∈ rest.map Prod.fst := List.mem_map.mpr ⟨q, hq, rfl⟩
        simpa [← hq1, hdh] using this)
    · have hdp : ¬ d ∈ p.2 := by
        intro hdp
        have hp1 : d.hash_value = p.1 := hcoh p (List.mem_cons_self p rest) d hdp
        have : h0 ∈ rest.map Prod.fst := List.mem_map.mpr ⟨(h0, g0), hmem, rfl⟩
        exact hnd1 (by simpa [hp1, ← hdh] using this)
      rw [List.filter_cons, if_neg (by simpa using hdp)]
      exact filter_mem_eq_singleton rest hnd2
        (fun q hq => hcoh q (List.mem_cons_of_mem _ hq)) h0 g0 d hmem hd hdh

/-- C4 — confirmed.  `_find_duplicates` / `find_duplicates` return exactly
the hash classes with at least two members: every returned group's key is
a non-empty hash and its members are exactly the scanned documents bearing
that hash (hence at least two of them); a record with an empty hash is in
no group; and a record whose non-empty hash is shared by at least one
other record appears in exactly one group — the one at its hash. -/
theorem C4_duplicate_grouping (docs : List DocumentInfo) :
    (∀ g ∈ find_duplicates docs, g.1 ≠ "" ∧ 2 ≤ g.2.length ∧
      g.2 = docs.filter (fun d => d.hash_value = g.1)) ∧
    (∀ d ∈ docs, d.hash_value = "" → ∀ g ∈ find_duplicates docs, d ∉ g.2) ∧
    (∀ d ∈ docs, d.hash_value ≠ "" →
      2 ≤ (docs.filter (fun e => e.hash_value = d.hash_value)).length →
      (find_duplicates docs).filter (fun g => d ∈ g.2) =
        [(d.hash_value, docs.filter (fun e => e.hash_value = d.hash_value))]) := by
  obtain ⟨hnodup, hempty⟩ := hashGroups_fold_keys docs [] (by simp) (by simp)
  have hkeys : ((hashGroups docs).map Prod.fst).Nodup := hnodup
  have hkeyne : ∀ g ∈ hashGroups docs, g.1 ≠ "" := by
    intro g hg he
    exact hempty (List.mem_map.mpr ⟨g, hg, he⟩)
  have hchar : ∀ g ∈ hashGroups docs, g.2 = docs.filter (fun d => d.hash_value = g.1) := by
    intro g hg
    have h1 : groupOf g.1 (hashGroups docs) = g.2 :=
      groupOf_of_mem (hashGroups docs) hkeys g.1 g.2 (by simpa using hg)
    rw [← h1, hashGroups_groupOf docs g.1 (hkeyne g hg)]
  have hmain : ∀ g ∈ find_duplicates docs, g.1 ≠ "" ∧ 2 ≤ g.2.length ∧
      g.2 = docs.filter (fun d => d.hash_value = g.1) := by
    intro g hg
    have hg2 := List.mem_filter.mp hg
    refine ⟨hkeyne g hg2.1, by simpa using hg2.2, hchar g hg2.1⟩
  refine ⟨hmain, ?_, ?_⟩
  · intro d _ hd g hg hdg
    have h3 := (hmain g hg).2.2
    rw [h3] at hdg
    have := (List.mem_filter.mp hdg).2
    simp only [decide_eq_true_eq] at this
    exact ((hmain g hg).1) (hd ▸ this.symm)
  · intro d hd hdh hcount
    have hG : groupOf d.hash_value (hashGroups docs) =
        docs.filter (fun e => e.hash_value = d.hash_value) :=
      hashGroups_groupOf docs d.hash_value hdh
    have hdG : d ∈ docs.filter (fun e => e.hash_value = d.hash_value) :=
      List.mem_filter.mpr ⟨hd, by simp⟩
    have hne : groupOf d.hash_value (hashGroups docs) ≠ [] := by
      rw [hG]
      intro he
      rw [he] at hdG
      simp at hdG
    have hmem : (d.hash_value, docs.filter (fun e => e.hash_value = d.hash_value)) ∈
        hashGroups docs := by
      have := groupOf_ne_nil_mem (hashGroups docs) d.hash_value hne
      rwa [hG] at this
    have hmemfd : (d.hash_value, docs.filter (fun e => e.hash_value = d.hash_value)) ∈
        find_duplicates docs := by
      apply List.mem_filter.mpr
      exact ⟨hmem, by simpa using hcount⟩
    have hsub : List.Sublist ((find_duplicates docs).map Prod.fst)
        ((hashGroups docs).map Prod.fst) :=
      (List.filter_sublist _).map Prod.fst
    have hndfd : ((find_duplicates docs).map Prod.fst).Nodup := hkeys.sublist hsub
    have hcohfd : ∀ p ∈ find_duplicates docs, ∀ e ∈ p.2, e.hash_value = p.1 := by
      intro p hp e hep
      have h3 := (hmain p hp).2.2
      rw [h3] at hep
      have := (List.mem_filter.mp hep).2
      simpa using this
    exact filter_mem_eq_singleton (find_duplicates docs) hndfd hcohfd
      d.hash_value (docs.filter (fun e => e.hash_value = d.hash_value)) d
      hmemfd hdG rfl

/-- Two documents sharing a hash and one unreadable document, for the C4
witness. -/
def wdA : DocumentInfo :=
  { path := "/w/a.txt", name := "a.txt", size := 5, modified_date := 10
    file_type := "", extension := ".txt", hash_value := "h1" }

/-- Second member of the witness hash class. -/
def wdB : DocumentInfo :=
  { path := "/w/b.txt", name := "b.txt", size := 5, modified_date := 20
    file_type := "", extension := ".txt", hash_value := "h1" }

/-- Witness document with an empty (unreadable) hash. -/
def wdC : DocumentInfo :=
  { path := "/w/c.txt", name := "c.txt", size := 9, modified_date := 30
    file_type := "", extension := ".txt", hash_value := "" }

/-- C4 witness: the claim theorem applied at a concrete scan — `wdA`
shares hash `"h1"` with `wdB`, so it appears in exactly one duplicate
group, the `"h1"` class `[wdA, wdB]`. -/
theorem C4_duplicate_grouping_witness :
    (find_duplicates [wdA, wdB, wdC]).filter (fun g => wdA ∈ g.2) =
      [("h1", [wdA, wdB])] := by
  have h := (C4_duplicate_grouping [wdA, wdB, wdC]).2.2 wdA
    (by decide) (by decide) (by decide)
  exact h.trans (by decide)

/-! # Claim C1: removal candidates within a duplicate group -/

/-- `d` is at least as new as every member of `g`. -/
def isNewestIn (g : List DocumentInfo) (d : DocumentInfo) : Bool :=
  g.all (fun e => e.modified_date ≤ d.modified_date)

theorem isNewestIn_iff (g : List DocumentInfo) (d : DocumentInfo) :
    isNewestIn g d = true ↔ ∀ e ∈ g, e.modified_date ≤ d.modified_date := by
  simp [isNewestIn, List.all_eq_true]

theorem insertByMtimeDesc_perm (d : DocumentInfo) :
    ∀ l : List DocumentInfo, (insertByMtimeDesc d l).Perm (d :: l)
  | [] => List.Perm.refl _
  | e :: es => by
    unfold insertByMtimeDesc
    by_cases h : d.modified_date < e.modified_date
    · rw [if_pos h]
      exact ((insertByMtimeDesc_perm d es).cons e).trans (List.Perm.swap d e es)
    · rw [if_neg h]

theorem sortByMtimeDesc_perm : ∀ g : List DocumentInfo, (sortByMtimeDesc g).Perm g
  | [] => List.Perm.refl _
  | d :: ds =>
    (insertByMtimeDesc_perm d (sortByMtimeDesc ds)).trans ((sortByMtimeDesc_perm ds).cons d)

/-- The head of the stable newest-first sort is the first-listed document
of maximal `modified_date` — the member `_auto_remove_duplicates`
keeps. -/
theorem sortByMtimeDesc_head? (g : List DocumentInfo) :
    (sortByMtimeDesc g).head? = g.find? (isNewestIn g) := by
  induction g with
  | nil => rfl
  | cons x xs ih =>
    show (insertByMtimeDesc x (sortByMtimeDesc xs)).head? = _
    cases hs : sortByMtimeDesc xs with
    | nil =>
      have hxs : xs = [] := by
        have hlen := (sortByMtimeDesc_perm xs).length_eq
        rw [hs] at hlen
        exact List.eq_nil_of_length_eq_zero hlen.symm
      subst hxs
      rw [List.find?_cons_of_pos _ (by simp [isNewestIn])]
      rfl
    | cons h t =>
      have hfind : xs.find? (isNewestIn xs) = some h := by
        rw [← ih, hs]
        rfl
      have hmem : h ∈ xs := List.mem_of_find?_eq_some hfind
      have hpred : isNewestIn xs h = true := List.find?_some hfind
      have hmax : ∀ e ∈ xs, e.modified_date ≤ h.modified_date :=
        (isNewestIn_iff xs h).mp hpred
      by_cases hcmp : x.modified_date < h.modified_date
      · have hL : (insertByMtimeDesc x (h :: t)).head? = some h := by
          simp [insertByMtimeDesc, if_pos hcmp]
        rw [hL]
        have hxfalse : ¬ isNewestIn (x :: xs) x = true := by
          rw [isNewestIn_iff]
          intro hall
          exact absurd (hall h (List.mem_cons_of_mem x hmem)) (not_le.mpr hcmp)
        rw [List.find?_cons_of_neg _ hxfalse]
        have hcongr : ∀ e ∈ xs, isNewestIn (x :: xs) e = isNewestIn xs e := by
          intro e he
          rw [Bool.eq_iff_iff, isNewestIn_iff, isNewestIn_iff]
          constructor
          · intro hall f hf
            exact hall f (List.mem_cons_of_mem x hf)
          · intro hall f hf
            rcases List.mem_cons.mp hf with heq | hf2
            · subst heq
              exact le_trans hcmp.le (hall h hmem)
            · exact hall f hf2
        rw [find?_congr_on _ _ xs hcongr, hfind]
      · have hL : (insertByMtimeDesc x (h :: t)).head? = some x := by
          simp [insertByMtimeDesc, if_neg hcmp]
        rw [hL]
        have hxtrue : isNewestIn (x :: xs) x = true := by
          rw [isNewestIn_iff]
          intro e he
          rcases List.mem_cons.mp he with heq | he2
          · subst heq
            exact le_refl _
          · exact le_trans (hmax e he2) (not_lt.mp hcmp)
        rw [List.find?_cons_of_pos _ hxtrue]

/-- Members of the group the claim's tie-break gets wrong: listed/scanned
order is `[c1B, c1A, c1C]`; `c1B` and `c1A` have equal `modified_date`
with `c1A` the lexically smaller path, and `c1C` is older and below the
1 MB removal threshold. -/
def c1B : DocumentInfo :=
  { path := "/d/b.txt", name := "b.txt", size := 3000000, modified_date := 100
    file_type := "", extension := ".txt", hash_value := "hc1" }

/-- Tie partner of `c1B` with the lexically first path. -/
def c1A : DocumentInfo :=
  { path := "/d/a.txt", name := "a.txt", size := 3000000, modified_date := 100
    file_type := "", extension := ".txt", hash_value := "hc1" }

/-- Older, sub-threshold member of the counterexample group. -/
def c1C : DocumentInfo :=
  { path := "/d/c.txt", name := "c.txt", size := 1000, modified_date := 50
    file_type := "", extension := ".txt", hash_value := "hc1" }

/-- C1 counterexample.  On the group `[c1B, c1A, c1C]` (scan order) with
the default 1 MB threshold, the spec-side candidates — sort by
`modifiedTime` descending with ties broken by lexical path order, drop the
first — are `[c1B, c1C]` (keep lexically-first `a.txt`, remove the other
two), but `_auto_remove_duplicates` removes exactly `[c1A]`: Python's
stable sort keeps the scan order on the `modified_date` tie, so the
lexically-later `b.txt` is kept, and the sub-threshold `c1C` is never
removed.  The removed set is neither "all members except the
spec-sorted first" nor selected by the claimed tie-break. -/
theorem C1_counterexample :
    auto_remove_group 1 [c1B, c1A, c1C] = [c1A] ∧
    specRemovalCandidates [c1B, c1A, c1C] = [c1B, c1C] ∧
    ([c1A] : List DocumentInfo) ≠ [c1B, c1C] := by
  refine ⟨by decide, by decide, by decide⟩

/-- C1 — corrected.  For every duplicate group, the documents removed by
`_auto_remove_duplicates` are exactly the non-head members of the group
after a *stable* sort by `modifiedTime` descending — on a
`modified_date` tie the member listed first in scan order is kept (not the
lexically-first path) — and of those only the ones whose size strictly
exceeds the configured threshold (in MB) are removed.  The kept head is
precisely the first-listed member of maximal `modified_date`, and the
sorted group is a permutation of the group, so every removal candidate is
a group member. -/
theorem C1_auto_remove_group (threshold_mb : Nat) (g : List DocumentInfo) :
    auto_remove_group threshold_mb g =
      (if g.length ≤ 1 then []
       else ((sortByMtimeDesc g).drop 1).filter
         (fun d => threshold_mb * 1024 * 1024 < d.size)) ∧
    (sortByMtimeDesc g).head? = g.find? (isNewestIn g) ∧
    (sortByMtimeDesc g).Perm g :=
  ⟨rfl, sortByMtimeDesc_head? g, sortByMtimeDesc_perm g⟩


/-! # Claims C2 and C9: the cap and termination of the scanner -/

/-- The inner file loop collects files until the list or the remaining
capacity is exhausted, never sets the outer `break` flag, and never
exceeds the cap. -/
theorem scanFiles_spec (maxF : Nat) :
    ∀ (files : List DocumentInfo) (st : ScanState), st.records.length ≤ maxF →
      (scanFiles maxF files st).records.length =
          min maxF (st.records.length + files.length) ∧
        (scanFiles maxF files st).stopped = st.stopped ∧
        (scanFiles maxF files st).records.length ≤ maxF
  | [], st => fun hle => by
    refine ⟨?_, rfl, hle⟩
    simp only [scanFiles, List.length_nil]
    omega
  | f :: fs, st => fun hle => by
    by_cases hcap : maxF ≤ st.records.length
    · have heq : scanFiles maxF (f :: fs) st = { st with warned := true } := by
        simp only [scanFiles, if_pos hcap]
      rw [heq]
      refine ⟨?_, rfl, hle⟩
      simp only [List.length_cons]
      omega
    · have heq : scanFiles maxF (f :: fs) st =
          scanFiles maxF fs { st with records := st.records ++ [f] } := by
        simp only [scanFiles, if_neg hcap]
      rw [heq]
      obtain ⟨h1, h2, h3⟩ := scanFiles_spec maxF fs { st with records := st.records ++ [f] }
        (by simp only [List.length_append, List.length_cons, List.length_nil]; omega)
      refine ⟨?_, h2, h3⟩
      rw [h1]
      simp only [List.length_append, List.length_cons, List.length_nil]
      omega

mutual
/-- Record count of one directory visit: unchanged when the walk has
stopped or the directory is excluded, otherwise the prior count plus the
directory's visible files, clipped at the cap; the count never exceeds the
cap; a stopped result is exactly at the cap; and a stopped input is
returned unchanged. -/
theorem scanTree_len (ex : List String) (maxF : Nat) :
    ∀ (t : FTree) (st : ScanState), st.records.length ≤ maxF →
      (st.stopped = true → st.records.length = maxF) →
      ((scanTree ex maxF t st).records.length =
          if st.stopped = true then st.records.length
          else min maxF (st.records.length + visibleCount ex t)) ∧
        (scanTree ex maxF t st).records.length ≤ maxF ∧
        ((scanTree ex maxF t st).stopped = true →
          (scanTree ex maxF t st).records.length = maxF) ∧
        (st.stopped = true → scanTree ex maxF t st = st)
  | .node name files links subs, st => fun hle hstop => by
    by_cases hst : st.stopped = true
    · have heq : scanTree ex maxF (.node name files links subs) st = st := by
        simp only [scanTree, if_pos hst]
      rw [heq, if_pos hst]
      exact ⟨rfl, hle, hstop, fun _ => rfl⟩
    · by_cases hskip : should_skip_directory ex name = true
      · have heq : scanTree ex maxF (.node name files links subs) st = st := by
          simp only [scanTree, if_neg hst, if_pos hskip]
        rw [heq, if_neg hst]
        have hvc : visibleCount ex (.node name files links subs) = 0 := by
          simp only [visibleCount, if_pos hskip]
        rw [hvc]
        exact ⟨by omega, hle, hstop, fun habs => absurd habs hst⟩
      · have hvc : visibleCount ex (.node name files links subs) =
            files.length + visibleCountF ex subs := by
          simp only [visibleCount, if_neg hskip]
        obtain ⟨hf1, hf2, hf3⟩ := scanFiles_spec maxF files st hle
        by_cases hcap : maxF ≤ (scanFiles maxF files st).records.length
        · have heq : scanTree ex maxF (.node name files links subs) st =
              scanForest ex maxF subs (markStopped (scanFiles maxF files st)) := by
            simp only [scanTree, if_neg hst, if_neg hskip, if_pos hcap]
          have hst1len : (markStopped (scanFiles maxF files st)).records.length = maxF := by
            simp only [markStopped]
            omega
          obtain ⟨hg1, hg2, hg3, _⟩ := scanForest_len ex maxF subs
            (markStopped (scanFiles maxF files st)) (le_of_eq hst1len) (fun _ => hst1len)
          have hms : (markStopped (scanFiles maxF files st)).stopped = true := rfl
          rw [if_pos hms] at hg1
          rw [heq, if_neg hst, hvc]
          refine ⟨?_, hg2, hg3, fun habs => absurd habs hst⟩
          rw [hg1, hst1len]
          simp only [markStopped] at hst1len
          rw [hf1] at hst1len
          omega
        · have heq : scanTree ex maxF (.node name files links subs) st =
              scanForest ex maxF subs (scanFiles maxF files st) := by
            simp only [scanTree, if_neg hst, if_neg hskip, if_neg hcap]
          obtain ⟨hg1, hg2, hg3, _⟩ := scanForest_len ex maxF subs
            (scanFiles maxF files st) hf3 (fun hs => by rw [hf2] at hs; exact absurd hs hst)
          rw [hf2, if_neg hst] at hg1
          rw [heq, if_neg hst, hvc]
          refine ⟨?_, hg2, hg3, fun habs => absurd habs hst⟩
          rw [hg1, hf1]
          omega

/-- `scanTree_len`, for a list of sibling subdirectories. -/
theorem scanForest_len (ex : List String) (maxF : Nat) :
    ∀ (ts : List FTree) (st : ScanState), st.records.length ≤ maxF →
      (st.stopped = true → st.records.length = maxF) →
      ((scanForest ex maxF ts st).records.length =
          if st.stopped = true then st.records.length
          else min maxF (st.records.length + visibleCountF ex ts)) ∧
        (scanForest ex maxF ts st).records.length ≤ maxF ∧
        ((scanForest ex maxF ts st).stopped = true →
          (scanForest ex maxF ts st).records.length = maxF) ∧
        (st.stopped = true → scanForest ex maxF ts st = st)
  | [], st => fun hle hstop => by
    have heq : scanForest ex maxF [] st = st := by simp only [scanForest]
    have hvc : visibleCountF ex ([] : List FTree) = 0 := by simp only [visibleCountF]
    rw [heq, hvc]
    by_cases hst : st.stopped = true
    · rw [if_pos hst]
      exact ⟨rfl, hle, hstop, fun _ => rfl⟩
    · rw [if_neg hst]
      exact ⟨by omega, hle, hstop, fun habs => absurd habs hst⟩
  | t :: ts, st => fun hle hstop => by
    have heq : scanForest ex maxF (t :: ts) st =
        scanForest ex maxF ts (scanTree ex maxF t st) := by
      simp only [scanForest]
    obtain ⟨ha1, ha2, ha3, ha4⟩ := scanTree_len ex maxF t st hle hstop
    obtain ⟨hb1, hb2, hb3, hb4⟩ := scanForest_len ex maxF ts (scanTree ex maxF t st) ha2 ha3
    have hvc : visibleCountF ex (t :: ts) =
        visibleCount ex t + visibleCountF ex ts := by simp only [visibleCountF]
    rw [heq, hvc]
    by_cases hst : st.stopped = true
    · rw [if_pos hst, ha4 hst]
      rw [ha4 hst] at hb1 hb2 hb3 hb4
      rw [if_pos hst] at hb1
      exact ⟨hb1, hb2, hb3, fun _ => hb4 hst⟩
    · rw [if_neg hst]
      rw [if_neg hst] at ha1
      refine ⟨?_, hb2, hb3, fun habs => absurd habs hst⟩
      by_cases hst2 : (scanTree ex maxF t st).stopped = true
      · rw [if_pos hst2] at hb1
        have hmax := ha3 hst2
        rw [hb1, hmax]
        rw [hmax] at ha1
        omega
      · rw [if_neg hst2] at hb1
        rw [hb1, ha1]
        omega
end

/-- The first file of the cap-boundary counterexample tree. -/
def c2f1 : DocumentInfo :=
  { path := "/r/d1/f1", name := "f1", size := 1, modified_date := 0
    file_type := "", extension := "", hash_value := "k1" }

/-- The second file of the cap-boundary counterexample tree. -/
def c2f2 : DocumentInfo :=
  { path := "/r/d1/f2", name := "f2", size := 1, modified_date := 0
    file_type := "", extension := "", hash_value := "k2" }

/-- The third file of the cap-boundary counterexample tree, never
reached. -/
def c2f3 : DocumentInfo :=
  { path := "/r/d2/f3", name := "f3", size := 1, modified_date := 0
    file_type := "", extension := "", hash_value := "k3" }

/-- Root with two subdirectories: `d1` holds exactly `maxFiles` files,
`d2` holds one more. -/
def c2Tree : FTree :=
  .node "root" [] []
    [.node "d1" [c2f1, c2f2] [] [], .node "d2" [c2f3] [] []]

/-- C2 counterexample.  Scanning `c2Tree` (3 regular files, none pruned)
with `maxFiles = 2` returns exactly 2 records — but *no* truncation
warning is recorded: the cap is reached exactly at the end of `d1`'s file
list, so the walk `break`s before the warning branch (which only fires
when a further file is seen while the count is at the cap) is ever
reached.  The claim's "returns exactly maxFiles records together with a
truncation warning" is false at this input. -/
theorem C2_counterexample :
    totalFileCount c2Tree = 3 ∧
    (scan_directory default_excluded_dirs 2 c2Tree).records.length = 2 ∧
    (scan_directory default_excluded_dirs 2 c2Tree).warned = false := by
  refine ⟨by decide, by decide, by decide⟩

/-- C2 — corrected.  For every root tree and cap, `scan_directory`
returns exactly `min maxFiles n` records, where `n` is the number of
regular files in the directories the traversal does not prune — in
particular it returns exactly `maxFiles` records whenever the non-pruned
tree holds more than `maxFiles` files, never returns more than
`maxFiles`, and already-collected records are returned when the cap is
hit.  (The truncation warning, however, is only logged when a further
file is encountered while the count already sits at the cap; it is
skipped when the cap is reached exactly at the end of a directory's file
list, as the counterexample shows.) -/
theorem C2_scan_cap (ex : List String) (maxF : Nat) (t : FTree) :
    (scan_directory ex maxF t).records.length = min maxF (visibleCount ex t) ∧
    (scan_directory ex maxF t).records.length ≤ maxF := by
  obtain ⟨h1, h2, _, _⟩ := scanTree_len ex maxF t
    { records := [], warned := false, stopped := false } (by simp) (by simp)
  rw [if_neg (by simp)] at h1
  simp only [List.length_nil, Nat.zero_add] at h1
  exact ⟨h1, h2⟩

mutual
/-- The walker never reads the symlink entries of a directory. -/
theorem scanTree_pruneLinks (ex : List String) (maxF : Nat) :
    ∀ (t : FTree) (st : ScanState),
      scanTree ex maxF (pruneLinks t) st = scanTree ex maxF t st
  | .node name files links subs, st => by
    simp only [pruneLinks, scanTree]
    by_cases hst : st.stopped = true
    · rw [if_pos hst, if_pos hst]
    · rw [if_neg hst, if_neg hst]
      by_cases hskip : should_skip_directory ex name = true
      · rw [if_pos hskip, if_pos hskip]
      · rw [if_neg hskip, if_neg hskip]
        exact scanForest_pruneLinks ex maxF subs _

/-- `scanTree_pruneLinks` over a list of subdirectories. -/
theorem scanForest_pruneLinks (ex : List String) (maxF : Nat) :
    ∀ (ts : List FTree) (st : ScanState),
      scanForest ex maxF (pruneLinksF ts) st = scanForest ex maxF ts st
  | [], st => rfl
  | t :: ts, st => by
    simp only [pruneLinksF, scanForest]
    rw [scanTree_pruneLinks ex maxF t st]
    exact scanForest_pruneLinks ex maxF ts _
end

mutual
/-- Visible files are a subset of all files. -/
theorem visibleCount_le_total (ex : List String) :
    ∀ (t : FTree), visibleCount ex t ≤ totalFileCount t
  | .node name files links subs => by
    by_cases hskip : should_skip_directory ex name = true
    · simp only [visibleCount, if_pos hskip, totalFileCount]
      omega
    · simp only [visibleCount, if_neg hskip, totalFileCount]
      have := visibleCountF_le_total ex subs
      omega

/-- `visibleCount_le_total` over a list of subdirectories. -/
theorem visibleCountF_le_total (ex : List String) :
    ∀ (ts : List FTree), visibleCountF ex ts ≤ totalFileCountF ts
  | [] => le_refl _
  | t :: ts => by
    simp only [visibleCountF, totalFileCountF]
    have h1 := visibleCount_le_total ex t
    have h2 := visibleCountF_le_total ex ts
    omega
end

/-- C9 — confirmed.  The scan of any root — including one containing a
cyclic symlink — is the scan of the same tree with every symlink entry
erased: `os.walk` is used without `followlinks=True`, so symlinked
directories are never descended into and contribute nothing, and the
walk is a structurally terminating traversal of the finite directory
tree whose record list is bounded by `min maxFiles (totalFileCount t)`
regardless of the symlinks present. -/
theorem C9_symlink_cycles (ex : List String) (maxF : Nat) (t : FTree) :
    scan_directory ex maxF (pruneLinks t) = scan_directory ex maxF t ∧
    (scan_directory ex maxF t).records.length = min maxF (visibleCount ex t) ∧
    (scan_directory ex maxF t).records.length ≤ totalFileCount t := by
  refine ⟨scanTree_pruneLinks ex maxF t _, ?_, ?_⟩
  · obtain ⟨h1, _, _, _⟩ := scanTree_len ex maxF t
      { records := [], warned := false, stopped := false } (by simp) (by simp)
    rw [if_neg (by simp)] at h1
    simp only [List.length_nil, Nat.zero_add] at h1
    exact h1
  · obtain ⟨h1, _, _, _⟩ := scanTree_len ex maxF t
      { records := [], warned := false, stopped := false } (by simp) (by simp)
    rw [if_neg (by simp)] at h1
    simp only [List.length_nil, Nat.zero_add] at h1
    unfold scan_directory
    rw [h1]
    have := visibleCount_le_total ex t
    omega

/-! # Claims C3 and C8: conflict-free destinations and the Mover

First, the counter-to-name map is injective: distinct counters give
distinct candidate paths.  This rests on the injectivity of the decimal
rendering `Nat.repr`, proved via an explicit value function on digit
lists. -/

/-- The decimal digit list of `n`, most significant first (the list that
`Nat.toDigitsCore` prepends to its accumulator). -/
def digs (n : Nat) : List Char :=
  if _h : n < 10 then [Nat.digitChar n]
  else digs (n / 10) ++ [Nat.digitChar (n % 10)]
decreasing_by exact Nat.div_lt_self (by omega) (by omega)

theorem toDigitsCore_eq_digs :
    ∀ (n fuel : Nat) (ds : List Char), n < fuel →
      Nat.toDigitsCore 10 fuel n ds = digs n ++ ds := by
  intro n
  induction n using Nat.strong_induction_on with
  | _ n ih =>
    intro fuel ds hlt
    match fuel, hlt with
    | fuel + 1, hlt =>
      simp only [Nat.toDigitsCore]
      by_cases h0 : n / 10 = 0
      · rw [if_pos h0]
        have hn : n < 10 := by omega
        rw [digs, dif_pos hn, Nat.mod_eq_of_lt hn]
        rfl
      · rw [if_neg h0]
        have h10 : ¬ n < 10 := by omega
        have hlt2 : n / 10 < n := Nat.div_lt_self (by omega) (by omega)
        rw [ih (n / 10) hlt2 fuel _ (by omega)]
        conv_rhs => rw [digs]
        rw [dif_neg h10]
        simp [List.append_assoc]

/-- `(digitChar m).toNat - 48 = m` for a single decimal digit. -/
theorem digitChar_val : ∀ m : Nat, m < 10 → (Nat.digitChar m).toNat - 48 = m := by decide

theorem foldl_digs (n : Nat) :
    ∀ a : Nat, (digs n).foldl (fun a c => 10 * a + (c.toNat - 48)) a =
      a * 10 ^ (digs n).length + n := by
  induction n using Nat.strong_induction_on with
  | _ n ih =>
    intro a
    by_cases hn : n < 10
    · rw [digs, dif_pos hn]
      simp only [List.foldl_cons, List.foldl_nil, List.length_cons, List.length_nil]
      rw [digitChar_val n hn]
      ring
    · rw [digs, dif_neg hn]
      have hlt2 : n / 10 < n := Nat.div_lt_self (by omega) (by omega)
      rw [List.foldl_append, ih (n / 10) hlt2 a]
      simp only [List.foldl_cons, List.foldl_nil, List.length_append, List.length_cons,
        List.length_nil]
      rw [digitChar_val (n % 10) (by omega)]
      have hdm : 10 * (n / 10) + n % 10 = n := by omega
      calc 10 * (a * 10 ^ (digs (n / 10)).length + n / 10) + n % 10
          = a * (10 ^ (digs (n / 10)).length * 10) + (10 * (n / 10) + n % 10) := by ring
        _ = a * 10 ^ ((digs (n / 10)).length + 1) + n := by rw [hdm, pow_succ]
        _ = a * 10 ^ ((digs (n / 10)).length + (0 + 1)) + n := by rw [Nat.zero_add]

theorem digs_injective : Function.Injective digs := by
  intro a b h
  have ha := foldl_digs a 0
  have hb := foldl_digs b 0
  rw [h] at ha
  omega

theorem string_eq_of_data {s t : String} (h : s.data = t.data) : s = t := by
  cases s
  cases t
  exact congrArg String.mk h

theorem repr_injective : Function.Injective Nat.repr := by
  intro a b h
  apply digs_injective
  have ha : (Nat.repr a).data = digs a := by
    show (Nat.toDigits 10 a).asString.data = digs a
    rw [Nat.toDigits, toDigitsCore_eq_digs a (a + 1) [] (by omega)]
    simp [List.asString]
  have hb : (Nat.repr b).data = digs b := by
    show (Nat.toDigits 10 b).asString.data = digs b
    rw [Nat.toDigits, toDigitsCore_eq_digs b (b + 1) [] (by omega)]
    simp [List.asString]
  rw [← ha, ← hb, h]

/-- Distinct counters give distinct candidate destination paths. -/
theorem candTarget_injective (target_dir name : String) :
    Function.Injective (candTarget target_dir name) := by
  intro k j h
  have h2 := congrArg String.data h
  simp only [candTarget, pathJoin, String.data_append, List.append_assoc] at h2
  have h3 := List.append_cancel_left (List.append_cancel_left
    (List.append_cancel_left (List.append_cancel_left h2)))
  have h4 := List.append_cancel_right h3
  exact repr_injective (string_eq_of_data h4)

/-- Pigeonhole: an injective family of candidate names cannot all be
occupied — some counter in the window `[1, occupied.length + 1]` is
free. -/
theorem exists_free_candidate (occupied : List String) (cand : Nat → String)
    (hinj : Function.Injective cand) :
    ∃ j, 1 ≤ j ∧ j < 1 + (occupied.length + 1) ∧ cand j ∉ occupied := by
  by_contra hall
  push_neg at hall
  have hmaps : ∀ j ∈ Finset.Icc 1 (occupied.length + 1), cand j ∈ occupied.toFinset := by
    intro j hj
    rw [Finset.mem_Icc] at hj
    rw [List.mem_toFinset]
    exact hall j hj.1 (by omega)
  have hcard : occupied.toFinset.card < (Finset.Icc 1 (occupied.length + 1)).card := by
    rw [Nat.card_Icc]
    have := occupied.toFinset_card_le
    omega
  obtain ⟨a, ha, b, hb, hab, heq⟩ :=
    Finset.exists_ne_map_eq_of_card_lt_of_maps_to hcard hmaps
  exact hab (hinj heq)

/-- If some counter in the fuel window is free, the search returns a free
counter. -/
theorem findFreeCounter_free (occupied : List String) (cand : Nat → String) :
    ∀ (fuel k : Nat), (∃ j, k ≤ j ∧ j < k + fuel ∧ cand j ∉ occupied) →
      cand (findFreeCounter occupied cand fuel k) ∉ occupied
  | 0, k => fun hex => by
    obtain ⟨j, h1, h2, _⟩ := hex
    omega
  | fuel + 1, k => fun hex => by
    simp only [findFreeCounter]
    by_cases hk : cand k ∈ occupied
    · rw [if_pos hk]
      apply findFreeCounter_free occupied cand fuel (k + 1)
      obtain ⟨j, h1, h2, h3⟩ := hex
      refine ⟨j, ?_, by omega, h3⟩
      rcases Nat.eq_or_lt_of_le h1 with heq | hlt
      · subst heq
        exact absurd hk h3
      · omega
    · rw [if_neg hk]
      exact hk

/-- The resolved destination of the `while os.path.exists` loop is never
an occupied path. -/
theorem resolve_target_path_free (fs : FileSystem) (target_dir name : String) :
    resolve_target_path fs target_dir name ∉ occupiedPaths fs := by
  unfold resolve_target_path
  by_cases hbase : pathJoin target_dir name ∈ occupiedPaths fs
  · rw [if_pos hbase]
    apply findFreeCounter_free
    obtain ⟨j, h1, h2, h3⟩ := exists_free_candidate (occupiedPaths fs)
      (candTarget target_dir name) (candTarget_injective target_dir name)
    exact ⟨j, h1, by omega, h3⟩
  · rw [if_neg hbase]
    exact hbase

/-- An unoccupied path is neither an existing file nor an existing
directory. -/
theorem not_mem_of_not_occupied {fs : FileSystem} {p : String}
    (h : p ∉ occupiedPaths fs) : p ∉ fs.files ∧ p ∉ fs.dirs := by
  unfold occupiedPaths at h
  simp only [List.mem_append] at h
  push_neg at h
  exact h

/-- `os.makedirs` never touches files. -/
theorem makedirs_files (fs : FileSystem) (d : String) : (makedirs fs d).files = fs.files := by
  unfold makedirs
  split
  · rfl
  · rfl

/-- `organize_step` on a document without a target directory. -/
theorem organize_step_none (create_dir : Bool) (tgt : DocumentInfo → Option String)
    (st : OrganizeState) (doc : DocumentInfo) (htgt : tgt doc = none) :
    organize_step create_dir tgt st doc = st := by
  simp only [organize_step, htgt]

/-- `organize_step` on a document whose source still exists: the move
succeeds. -/
theorem organize_step_success (create_dir : Bool) (tgt : DocumentInfo → Option String)
    (st : OrganizeState) (doc : DocumentInfo) (tdir : String) (htgt : tgt doc = some tdir)
    (hmem : doc.path ∈ (if create_dir then makedirs st.fs tdir else st.fs).files) :
    organize_step create_dir tgt st doc =
      { fs := moveFile (if create_dir then makedirs st.fs tdir else st.fs) doc.path
          (resolve_target_path (if create_dir then makedirs st.fs tdir else st.fs) tdir doc.name)
        moves := st.moves ++ [(doc.path,
          resolve_target_path (if create_dir then makedirs st.fs tdir else st.fs) tdir doc.name)]
        errors := st.errors
        organized_count := st.organized_count + 1 } := by
  simp only [organize_step, htgt, if_pos hmem]

/-- `organize_step` on a document whose source has vanished: the
destination directory is still created (when the pass creates directories
inside the loop), the failure is recorded, and nothing is moved. -/
theorem organize_step_missing (create_dir : Bool) (tgt : DocumentInfo → Option String)
    (st : OrganizeState) (doc : DocumentInfo) (tdir : String) (htgt : tgt doc = some tdir)
    (hmem : doc.path ∉ (if create_dir then makedirs st.fs tdir else st.fs).files) :
    organize_step create_dir tgt st doc =
      { st with fs := if create_dir then makedirs st.fs tdir else st.fs
                errors := st.errors ++ [doc.path] } := by
  simp only [organize_step, htgt, if_neg hmem]

/-- Invariant of one whole organization pass: when the documents are
scan records — pairwise-distinct paths, all still on disk — every move
succeeds (no errors are appended) and the destinations claimed by the
pass are pairwise distinct. -/
theorem organize_fold_spec (create_dir : Bool) (tgt : DocumentInfo → Option String) :
    ∀ (docs : List DocumentInfo) (st : OrganizeState),
      (docs.map (fun d => d.path)).Nodup →
      (∀ d ∈ docs, d.path ∈ st.fs.files) →
      (∀ d ∈ docs, d.path ∉ st.moves.map Prod.snd) →
      (∀ p ∈ st.moves.map Prod.snd, p ∈ st.fs.files) →
      ((st.moves.map Prod.snd).Nodup) →
      ((docs.foldl (organize_step create_dir tgt) st).errors = st.errors ∧
        ((docs.foldl (organize_step create_dir tgt) st).moves.map Prod.snd).Nodup)
  | [], st => fun _ _ _ _ h5 => ⟨rfl, h5⟩
  | doc :: rest, st => fun h1 h2 h3 h4 h5 => by
    rw [List.map_cons, List.nodup_cons] at h1
    obtain ⟨h1a, h1b⟩ := h1
    rw [List.foldl_cons]
    cases htgt : tgt doc with
    | none =>
      rw [organize_step_none create_dir tgt st doc htgt]
      exact organize_fold_spec create_dir tgt rest st h1b
        (fun d hd => h2 d (List.mem_cons_of_mem _ hd))
        (fun d hd => h3 d (List.mem_cons_of_mem _ hd)) h4 h5
    | some tdir =>
      have hfs1 : (if create_dir then makedirs st.fs tdir else st.fs).files = st.fs.files := by
        cases create_dir
        · rfl
        · simp [makedirs_files]
      have hdp : doc.path ∈ (if create_dir then makedirs st.fs tdir else st.fs).files := by
        rw [hfs1]
        exact h2 doc (List.mem_cons_self _ _)
      have hfree := resolve_target_path_free
        (if create_dir then makedirs st.fs tdir else st.fs) tdir doc.name
      obtain ⟨hfreef, _⟩ := not_mem_of_not_occupied hfree
      rw [hfs1] at hfreef
      rw [organize_step_success create_dir tgt st doc tdir htgt hdp]
      set dest := resolve_target_path
        (if create_dir then makedirs st.fs tdir else st.fs) tdir doc.name with hdest
      have hih := organize_fold_spec create_dir tgt rest
        { fs := moveFile (if create_dir then makedirs st.fs tdir else st.fs) doc.path dest
          moves := st.moves ++ [(doc.path, dest)]
          errors := st.errors
          organized_count := st.organized_count + 1 }
        h1b
        (by
          intro e he
          show e.path ∈ dest :: ((if create_dir then makedirs st.fs tdir
            else st.fs).files.erase doc.path)
          apply List.mem_cons_of_mem
          rw [List.mem_erase_of_ne (by
            intro heq
            exact h1a (List.mem_map.mpr ⟨e, he, heq⟩))]
          rw [hfs1]
          exact h2 e (List.mem_cons_of_mem _ he))
        (by
          intro e he
          simp only [List.map_append, List.map_cons, List.map_nil]
          rw [List.mem_append]
          push_neg
          constructor
          · exact h3 e (List.mem_cons_of_mem _ he)
          · simp only [List.mem_singleton]
            intro heq
            apply hfreef
            rw [← heq]
            exact h2 e (List.mem_cons_of_mem _ he))
        (by
          intro p hp
          simp only [List.map_append, List.map_cons, List.map_nil] at hp
          rw [List.mem_append] at hp
          show p ∈ dest :: ((if create_dir then makedirs st.fs tdir
            else st.fs).files.erase doc.path)
          rcases hp with hpold | hpnew
          · apply List.mem_cons_of_mem
            rw [List.mem_erase_of_ne (by
              intro heq
              exact h3 doc (List.mem_cons_self _ _) (heq ▸ hpold))]
            rw [hfs1]
            exact h4 p hpold
          · simp only [List.mem_singleton] at hpnew
            rw [hpnew]
            exact List.mem_cons_self _ _)
        (by
          simp only [List.map_append, List.map_cons, List.map_nil]
          rw [List.nodup_append]
          refine ⟨h5, List.nodup_singleton _, ?_⟩
          intro p hpold
          simp only [List.mem_singleton]
          intro heq
          apply hfreef
          rw [← heq]
          exact h4 p hpold)
      exact hih

/-- Pre-creating the five quick-organize folders leaves the files
untouched. -/
theorem quick_mkdirs_files (directory : String) (fs : FileSystem) :
    ∀ (l : List (String × List String)),
      (l.foldl (fun fs fe => makedirs fs (pathJoin directory fe.1)) fs).files = fs.files := by
  intro l
  induction l generalizing fs with
  | nil => rfl
  | cons fe rest ih => rw [List.foldl_cons, ih, makedirs_files]

/-- First `report.pdf` of the concrete collision scenario. -/
def c3A : DocumentInfo :=
  { path := "/base/a/report.pdf", name := "report.pdf", size := 10, modified_date := 0
    file_type := "application/pdf", extension := ".pdf", hash_value := "ha" }

/-- Second `report.pdf`, distinct content, same category/date bucket. -/
def c3B : DocumentInfo :=
  { path := "/base/b/report.pdf", name := "report.pdf", size := 11, modified_date := 0
    file_type := "application/pdf", extension := ".pdf", hash_value := "hb" }

/-- The disk holding the two scenario files. -/
def c3FS : FileSystem :=
  { files := ["/base/a/report.pdf", "/base/b/report.pdf"], dirs := [] }

set_option maxHeartbeats 2000000 in
/-- C3 — confirmed.  For scan records (pairwise-distinct paths, all
present on disk when the pass starts), both organization passes produce
pairwise-distinct destination paths and no per-file failures: destination
candidates are re-checked with `os.path.exists` against the filesystem
into which each completed move has already inserted its destination, and
a numeric counter is inserted before the extension and incremented until
the candidate is free.  In particular organizing two files both named
`report.pdf` into the same category/date bucket yields destinations
`report.pdf` and `report_1.pdf`. -/
theorem C3_destination_uniqueness (directory : String) (fs : FileSystem)
    (docs : List DocumentInfo)
    (h1 : (docs.map (fun d => d.path)).Nodup)
    (h2 : ∀ d ∈ docs, d.path ∈ fs.files) :
    (((full_organize directory fs docs).moves.map Prod.snd).Nodup ∧
      (full_organize directory fs docs).errors = []) ∧
    (((quick_organize directory fs docs).moves.map Prod.snd).Nodup ∧
      (quick_organize directory fs docs).errors = []) ∧
    (full_organize "/base" c3FS [c3A, c3B]).moves =
      [("/base/a/report.pdf", "/base/Organized/Documents/1970/01-January/report.pdf"),
       ("/base/b/report.pdf", "/base/Organized/Documents/1970/01-January/report_1.pdf")] := by
  refine ⟨?_, ?_, by decide⟩
  · have h := organize_fold_spec true (full_target_dir directory) docs
      { fs := fs, moves := [], errors := [], organized_count := 0 }
      h1 h2 (by simp) (by simp) (by simp)
    exact ⟨h.2, h.1⟩
  · have h := organize_fold_spec false (quick_target_dir directory) docs
      { fs := org_folders.foldl (fun fs fe => makedirs fs (pathJoin directory fe.1)) fs
        moves := [], errors := [], organized_count := 0 }
      h1 (by
        intro d hd
        show d.path ∈ (org_folders.foldl
          (fun fs fe => makedirs fs (pathJoin directory fe.1)) fs).files
        rw [quick_mkdirs_files]
        exact h2 d hd) (by simp) (by simp) (by simp)
    exact ⟨h.2, h.1⟩

/-- C3 witness: the theorem applied at the concrete two-`report.pdf`
scenario, discharging the scan-record hypotheses by evaluation. -/
theorem C3_destination_uniqueness_witness :
    ((full_organize "/base" c3FS [c3A, c3B]).moves.map Prod.snd).Nodup ∧
    (full_organize "/base" c3FS [c3A, c3B]).errors = [] :=
  (C3_destination_uniqueness "/base" c3FS [c3A, c3B] (by decide) (by decide)).1

/-- Every document with a target directory produces exactly one outcome —
a successful move or a recorded failure — and the loop never aborts:
outcomes add up over the whole batch. -/
theorem organize_fold_count (create_dir : Bool) (tgt : DocumentInfo → Option String) :
    ∀ (docs : List DocumentInfo) (st : OrganizeState),
      (docs.foldl (organize_step create_dir tgt) st).moves.length +
          (docs.foldl (organize_step create_dir tgt) st).errors.length =
        st.moves.length + st.errors.length +
          (docs.filter (fun d => (tgt d).isSome)).length
  | [], st => by simp
  | doc :: rest, st => by
    rw [List.foldl_cons, List.filter_cons]
    cases htgt : tgt doc with
    | none =>
      rw [organize_step_none create_dir tgt st doc htgt]
      have hrec := organize_fold_count create_dir tgt rest st
      simp only [htgt, Option.isSome_none, Bool.false_eq_true, if_false]
      exact hrec
    | some tdir =>
      simp only [htgt, Option.isSome_some, if_pos]
      by_cases hmem : doc.path ∈ (if create_dir then makedirs st.fs tdir else st.fs).files
      · rw [organize_step_success create_dir tgt st doc tdir htgt hmem]
        rw [organize_fold_count create_dir tgt rest _]
        simp only [List.length_append, List.length_cons, List.length_nil]
        omega
      · rw [organize_step_missing create_dir tgt st doc tdir htgt hmem]
        rw [organize_fold_count create_dir tgt rest _]
        simp only [List.length_append, List.length_cons, List.length_nil]
        omega

/-- Each enumerated duplicate entry bumps exactly one of the two
counters. -/
theorem move_dup_entry_count (review : String) (st : MoveDupState)
    (e : Nat × (String × String)) :
    (move_dup_entry review st e).moved + (move_dup_entry review st e).skipped_missing =
      st.moved + st.skipped_missing + 1 := by
  unfold move_dup_entry
  split
  · simp only []
    omega
  · simp only []
    omega

theorem move_dup_entries_count (review : String) :
    ∀ (l : List (Nat × (String × String))) (st : MoveDupState),
      (l.foldl (move_dup_entry review) st).moved +
          (l.foldl (move_dup_entry review) st).skipped_missing =
        st.moved + st.skipped_missing + l.length
  | [], st => by simp
  | e :: l, st => by
    rw [List.foldl_cons, move_dup_entries_count review l _]
    rw [move_dup_entry_count]
    simp only [List.length_cons]
    omega

theorem move_dup_group_count (review : String) (st : MoveDupState)
    (files : List (String × String)) :
    (move_dup_group review st files).moved + (move_dup_group review st files).skipped_missing =
      st.moved + st.skipped_missing +
        (if files.length < 2 then 0 else files.length - 1) := by
  unfold move_dup_group
  by_cases hlen : files.length < 2
  · rw [if_pos hlen, if_pos hlen]
    omega
  · rw [if_neg hlen, if_neg hlen, move_dup_entries_count]
    simp only [List.enum_length, List.length_drop]

theorem move_dup_groups_count (review : String) :
    ∀ (groups : List (List (String × String))) (st : MoveDupState),
      (groups.foldl (move_dup_group review) st).moved +
          (groups.foldl (move_dup_group review) st).skipped_missing =
        st.moved + st.skipped_missing +
          (groups.map (fun g => if g.length < 2 then 0 else g.length - 1)).sum
  | [], st => by simp
  | g :: groups, st => by
    rw [List.foldl_cons, move_dup_groups_count review groups _, move_dup_group_count]
    simp only [List.map_cons, List.sum_cons]
    omega

/-- The document of the C8 counterexample: a scanned PDF whose file has
vanished before the weekly pass acts on it. -/
def c8Gone : DocumentInfo :=
  { path := "/x/gone.pdf", name := "gone.pdf", size := 10, modified_date := 0
    file_type := "application/pdf", extension := ".pdf", hash_value := "hg" }

set_option maxHeartbeats 2000000 in
/-- C8 counterexample.  The claim states every move entry's source "is
verified to still exist immediately before acting".  `_full_organize`
performs no such check: on a batch whose only entry's source is absent,
the failure is recorded and the batch continues — but the destination
directory tree has already been created by the time the move itself
fails, i.e. the pass acted on the entry without first verifying the
source.  (A verified-first Mover would leave the filesystem untouched.) -/
theorem C8_counterexample :
    c8Gone.path ∉ (FileSystem.mk [] []).files ∧
    (full_organize "/x" (FileSystem.mk [] []) [c8Gone]).errors = ["/x/gone.pdf"] ∧
    (full_organize "/x" (FileSystem.mk [] []) [c8Gone]).moves = [] ∧
    (full_organize "/x" (FileSystem.mk [] []) [c8Gone]).fs.dirs =
      ["/x/Organized/Documents/1970/01-January"] := by
  refine ⟨by decide, by decide, by decide, by decide⟩

/-- C8 — corrected.  Per-entry failure isolation holds for both cited
implementations: every document with a target yields exactly one outcome
(move or recorded failure) and the batch always continues — formally the
outcome counts add up over any batch, and processing a batch
`pre ++ post` runs `post` from the state `pre` left behind, whatever
failures `pre` contained.  `move_duplicate_files` does verify the source
with `os.path.exists` immediately before acting and leaves the
filesystem untouched for a missing entry, but `_full_organize` does not:
a missing source is only caught by the failing move itself, after the
destination directory tree has already been created (the recorded
failure and created directory are exhibited by the counterexample). -/
theorem C8_mover_isolation :
    (∀ (directory : String) (fs : FileSystem) (docs : List DocumentInfo),
      (full_organize directory fs docs).moves.length +
          (full_organize directory fs docs).errors.length =
        (docs.filter (fun d => (full_target_dir directory d).isSome)).length) ∧
    (∀ (directory : String) (fs : FileSystem) (docs : List DocumentInfo),
      (quick_organize directory fs docs).moves.length +
          (quick_organize directory fs docs).errors.length =
        (docs.filter (fun d => (quick_target_dir directory d).isSome)).length) ∧
    (∀ (directory : String) (st : OrganizeState) (doc : DocumentInfo) (tdir : String),
      full_target_dir directory doc = some tdir → doc.path ∉ st.fs.files →
      organize_step true (full_target_dir directory) st doc =
        { st with fs := makedirs st.fs tdir, errors := st.errors ++ [doc.path] }) ∧
    (∀ (directory : String) (st : OrganizeState) (pre post : List DocumentInfo),
      (pre ++ post).foldl (organize_step true (full_target_dir directory)) st =
        post.foldl (organize_step true (full_target_dir directory))
          (pre.foldl (organize_step true (full_target_dir directory)) st)) ∧
    (∀ (review : String) (st : MoveDupState) (i : Nat) (nm p : String),
      p ∉ st.fs.files →
      move_dup_entry review st (i, (nm, p)) =
        { st with skipped_missing := st.skipped_missing + 1 }) ∧
    (∀ (directory : String) (fs : FileSystem) (groups : List (List (String × String))),
      (move_duplicate_files directory fs groups).moved +
          (move_duplicate_files directory fs groups).skipped_missing =
        (groups.map (fun g => if g.length < 2 then 0 else g.length - 1)).sum) := by
  refine ⟨?_, ?_, ?_, ?_, ?_, ?_⟩
  · intro directory fs docs
    have h := organize_fold_count true (full_target_dir directory) docs
      { fs := fs, moves := [], errors := [], organized_count := 0 }
    simpa using h
  · intro directory fs docs
    have h := organize_fold_count false (quick_target_dir directory) docs
      { fs := org_folders.foldl (fun fs fe => makedirs fs (pathJoin directory fe.1)) fs
        moves := [], errors := [], organized_count := 0 }
    simpa using h
  · intro directory st doc tdir htgt hmem
    exact organize_step_missing true (full_target_dir directory) st doc tdir htgt
      (by rwa [if_pos rfl, makedirs_files])
  · intro directory st pre post
    exact List.foldl_append _ _ _ _
  · intro review st i nm p hp
    unfold move_dup_entry
    rw [if_neg hp]
  · intro directory fs groups
    have h := move_dup_groups_count (pathJoin directory "review_duplicate") groups
      { fs := makedirs fs (pathJoin directory "review_duplicate"), moved := 0
        skipped_missing := 0 }
    simpa using h

set_option maxHeartbeats 2000000 in
/-- C8 witness: the missing-source conjuncts of the theorem applied at a
concrete input — `_full_organize` records the failure but still creates
the destination directory, and `move_dup_entry` skips a missing source
with the filesystem untouched. -/
theorem C8_mover_isolation_witness :
    (organize_step true (full_target_dir "/x")
        { fs := FileSystem.mk [] [], moves := [], errors := [], organized_count := 0 } c8Gone =
      { fs := makedirs (FileSystem.mk [] []) "/x/Organized/Documents/1970/01-January"
        moves := [], errors := [] ++ ["/x/gone.pdf"], organized_count := 0 }) ∧
    (move_dup_entry "/x/review_duplicate"
        { fs := FileSystem.mk ["/x/k.txt"] [], moved := 0, skipped_missing := 0 }
        (0, ("gone.txt", "/x/gone.txt")) =
      { fs := FileSystem.mk ["/x/k.txt"] [], moved := 0, skipped_missing := 0 + 1 }) :=
  ⟨C8_mover_isolation.2.2.1 "/x"
      { fs := FileSystem.mk [] [], moves := [], errors := [], organized_count := 0 } c8Gone
      "/x/Organized/Documents/1970/01-January" (by decide) (by decide),
   C8_mover_isolation.2.2.2.2.1 "/x/review_duplicate"
      { fs := FileSystem.mk ["/x/k.txt"] [], moved := 0, skipped_missing := 0 }
      0 "gone.txt" "/x/gone.txt" (by decide)⟩
